import Mathlib

set_option maxRecDepth 100000

/-!
Verification development for the OpenEthereum receipt codec and the
frozen-chain-state registry.

The definitions below are a shallow embedding of:
  * `crates/ethcore/types/src/receipt.rs` — `TransactionOutcome`,
    `LegacyReceipt` (including `new`, `decode`, `rlp_append`),
    `TypedReceipt` (including `decode`, `decode_rlp`, `decode_rlp_list`,
    `rlp_append`, `rlp_append_list`, `encode`) and `deserialize_bloom`;
  * `crates/ethjson/src/spec/frozen.rs` — `TransactionTrace`, `Op`,
    `BalanceOp`, `StorageChange`, `FrozenChainState`,
    `restore_frozen_state`.

Machine bytes are modelled as `Nat` (kept below 256 where it matters),
256-bit words as `Nat` below `2 ^ 256`, and the 2048-bit bloom as a `Nat`
below `2 ^ 2048`.  The external parity `rlp` crate is modelled by an
explicit byte-level RLP encoder and parser, following the crate's
documented semantics (lazy view over the first item of a buffer,
minimal big-endian integer encodings, fixed-width hash encodings).
-/

/-- Big-endian byte interpretation: fold of `a * 256 + digit`. -/
def beToNat (bs : List Nat) : Nat :=
  bs.foldl (fun a d => a * 256 + d) 0

/-- Fuel-driven minimal big-endian encoding of a natural number. -/
def natToBeAux : Nat → Nat → List Nat
  | _, 0 => []
  | 0, _ + 1 => []
  | fuel + 1, n + 1 => natToBeAux fuel ((n + 1) / 256) ++ [(n + 1) % 256]

/-- Minimal big-endian byte encoding: no leading zero byte, `0` encodes
as the empty byte string (parity `rlp` unsigned-integer convention). -/
def natToBe (n : Nat) : List Nat := natToBeAux n n

/-- Fixed-width big-endian byte encoding, left-padded with zero bytes
(parity fixed-hash convention: `H160`/`H256`/`Bloom` bodies). -/
def beFixed (w n : Nat) : List Nat :=
  List.replicate (w - (natToBe n).length) 0 ++ natToBe n

/-- Error taxonomy of the parity `rlp` crate, as used by the receipt
codec (`DecoderError`). -/
inductive DecoderError where
  | rlpIncorrectListLen
  | rlpExpectedToBeList
  | rlpExpectedToBeData
  | rlpIsTooShort
  | rlpIsTooBig
  | rlpInvalidIndirection
  | custom (msg : String)
  deriving DecidableEq, Repr

/-- Result type of fallible RLP decoding (`Result<_, DecoderError>`). -/
inductive DR (α : Type) where
  | err (e : DecoderError)
  | ok (a : α)
  deriving DecidableEq, Repr

instance : Monad DR where
  pure := .ok
  bind m f := match m with | .err e => .err e | .ok a => f a

instance : LawfulMonad DR :=
  LawfulMonad.mk' DR
    (by intro α x; cases x <;> rfl)
    (by intro α β x f; rfl)
    (by intro α β γ x f g; cases x <;> rfl)

/-- Structured RLP value: a byte string or a list of RLP values. -/
inductive RlpItem where
  | str (bs : List Nat)
  | list (items : List RlpItem)

/-- Length header of an RLP string or list payload: `base + n` for short
payloads, else `base + 55 + |be n|` followed by the big-endian length. -/
def lenHeader (base n : Nat) : List Nat :=
  if n ≤ 55 then [base + n]
  else (base + 55 + (natToBe n).length) :: natToBe n

/-- RLP encoding of a byte string: a single byte below `0x80` stands for
itself, otherwise a `0x80`-based length header precedes the bytes. -/
def encStr (bs : List Nat) : List Nat :=
  if bs.length = 1 ∧ bs.headD 0 < 0x80 then bs
  else lenHeader 0x80 bs.length ++ bs

/-- RLP list framing: a `0xc0`-based length header precedes the
concatenated encodings of the elements. -/
def wrapList (payload : List Nat) : List Nat :=
  lenHeader 0xc0 payload.length ++ payload

/-- Reads one RLP header from the front of a buffer, returning whether
the item is a list, its payload bytes and the remaining buffer. -/
def splitHeader : List Nat → Option (Bool × List Nat × List Nat)
  | [] => none
  | b :: rest =>
    if b < 0x80 then some (false, [b], rest)
    else if b < 0xb8 then
      let n := b - 0x80
      if n ≤ rest.length then some (false, rest.take n, rest.drop n) else none
    else if b < 0xc0 then
      let ll := b - 0xb7
      if ll ≤ rest.length then
        let n := beToNat (rest.take ll)
        let rest2 := rest.drop ll
        if n ≤ rest2.length then some (false, rest2.take n, rest2.drop n) else none
      else none
    else if b < 0xf8 then
      let n := b - 0xc0
      if n ≤ rest.length then some (true, rest.take n, rest.drop n) else none
    else
      let ll := b - 0xf7
      if ll ≤ rest.length then
        let n := beToNat (rest.take ll)
        let rest2 := rest.drop ll
        if n ≤ rest2.length then some (true, rest2.take n, rest2.drop n) else none
      else none

/-- Fuel-driven parser for a whole buffer as a sequence of RLP items. -/
def parseMany : Nat → List Nat → Option (List RlpItem)
  | _, [] => some []
  | 0, _ :: _ => none
  | fuel + 1, b :: bs =>
    match splitHeader (b :: bs) with
    | none => none
    | some (isList, payload, rest) =>
      let item? : Option RlpItem :=
        if isList then (parseMany fuel payload).map RlpItem.list
        else some (.str payload)
      match item?, parseMany fuel rest with
      | some it, some its => some (it :: its)
      | _, _ => none

/-- Parses the first RLP item of a buffer, returning it together with
the unread remainder of the buffer. -/
def parseOneF (fuel : Nat) (bs : List Nat) : Option (RlpItem × List Nat) :=
  match splitHeader bs with
  | none => none
  | some (isList, payload, rest) =>
    if isList then (parseMany fuel payload).map (fun its => (RlpItem.list its, rest))
    else some (.str payload, rest)

/-- Model of `Rlp::new(bytes)` followed by structural inspection: the
first item of the buffer (parity's view is lazy and never reads past
the first item, so trailing bytes are ignored). -/
def rlpOf (bs : List Nat) : DR RlpItem :=
  match parseOneF bs.length bs with
  | some (it, _) => .ok it
  | none => .err .rlpIsTooShort

/-- Number of items of an RLP list view (`Rlp::item_count`); data items
report `RlpExpectedToBeList` as in parity `rlp`. -/
def itemCount : RlpItem → DR Nat
  | .list its => .ok its.length
  | .str _ => .err .rlpExpectedToBeList

/-- Item at an index of an RLP list view (`Rlp::at`). -/
def rlpAt : RlpItem → Nat → DR RlpItem
  | .list its, i =>
    match its.get? i with
    | some it => .ok it
    | none => .err .rlpIsTooShort
  | .str _, _ => .err .rlpExpectedToBeList

/-- True when the view is a byte-string item (`Rlp::is_data`). -/
def rlpIsData : RlpItem → Bool
  | .str _ => true
  | .list _ => false

/-- True when the view is a list item (`Rlp::is_list`). -/
def rlpIsList : RlpItem → Bool
  | .str _ => false
  | .list _ => true

/-- Payload bytes of a byte-string view (`Rlp::data`).  In parity `rlp`
a list view would also expose its raw payload, but every modelled call
site guards `data()` behind `!is_list()`, so the list case is never
reached; it is mapped to an error here. -/
def rlpData : RlpItem → DR (List Nat)
  | .str bs => .ok bs
  | .list _ => .err .rlpExpectedToBeData

/-- Decoding of an unsigned 256-bit integer value (`as_val::<U256>()`):
at most 32 minimal big-endian bytes, leading zero bytes rejected. -/
def asU256 : RlpItem → DR Nat
  | .list _ => .err .rlpExpectedToBeData
  | .str bs =>
    match bs with
    | 0 :: _ => .err .rlpInvalidIndirection
    | _ => if bs.length ≤ 32 then .ok (beToNat bs) else .err .rlpIsTooBig

/-- Decoding of a `u8` value (`as_val::<u8>()`): empty means zero, a
single non-zero byte stands for itself, anything else is rejected. -/
def asU8 : RlpItem → DR Nat
  | .list _ => .err .rlpExpectedToBeData
  | .str [] => .ok 0
  | .str [b] => if b = 0 then .err .rlpInvalidIndirection else .ok b
  | .str _ => .err .rlpIsTooBig

/-- Decoding of a fixed-width hash value of `w` bytes (`as_val` at
`H160`/`H256`/`Bloom` types): the byte string must be exactly `w` long. -/
def asFixed (w : Nat) : RlpItem → DR Nat
  | .list _ => .err .rlpExpectedToBeData
  | .str bs =>
    if bs.length < w then .err .rlpIsTooShort
    else if w < bs.length then .err .rlpIsTooBig
    else .ok (beToNat bs)

/-- Decoding of a raw byte-string value (`as_val::<Vec<u8>>()`). -/
def asBytes : RlpItem → DR (List Nat)
  | .list _ => .err .rlpExpectedToBeData
  | .str bs => .ok bs

/-- Transaction outcome stored in the receipt (`TransactionOutcome`). -/
inductive TransactionOutcome where
  | unknown
  | stateRoot (root : Nat)
  | statusCode (code : Nat)
  deriving DecidableEq, Repr

/-- Modelled from the spec: the consumed log-entry collaborator
(`log_entry.rs` is not part of the sources) — a log entry exposes an
address, topics, data and a bloom projection. -/
structure LogEntry where
  address : Nat
  topics : List Nat
  data : List Nat
  deriving DecidableEq, Repr

/-- Modelled from the spec: an independent mapping of one value into
the 2048-bit bloom space.  The concrete (keccak-based) mapping is
excluded from the core ("the log/bloom-filter math beyond its accrual
contract"); only its interface — some fixed bloom projection per value
— is relevant here. -/
def bloomBit (n : Nat) : Nat := 2 ^ (n % 2048)

/-- Modelled from the spec: a log entry's own bloom projection ORs the
mapped address with the mapped topics. -/
def LogEntry.bloom (l : LogEntry) : Nat :=
  l.topics.foldl (fun acc t => acc ||| bloomBit t) (bloomBit l.address)

/-- Bloom accrual (`Bloom::accrue_bloom` of `ethereum-types`): the
bitwise OR of two 2048-bit filters. -/
def accrueBloom (b b' : Nat) : Nat := b ||| b'

/-- Information describing the execution of a transaction
(`LegacyReceipt`). -/
structure LegacyReceipt where
  gas_used : Nat
  log_bloom : Nat
  logs : List LogEntry
  outcome : TransactionOutcome
  deriving DecidableEq, Repr

/-- Constructor `LegacyReceipt::new`: the bloom is the OR-fold of the
logs' own bloom projections over the zero bloom. -/
def LegacyReceipt.new (outcome : TransactionOutcome) (gas_used : Nat)
    (logs : List LogEntry) : LegacyReceipt :=
  { gas_used
    log_bloom := logs.foldl (fun b l => accrueBloom b l.bloom) 0
    logs
    outcome }

/-- RLP bytes of one log entry, modelled from the spec's wire format
for the log collaborator: a 3-item list (address, topics, data). -/
def encLog (l : LogEntry) : List Nat :=
  wrapList (encStr (beFixed 20 l.address) ++
    wrapList ((l.topics.map (fun t => encStr (beFixed 32 t))).flatten) ++
    encStr l.data)

/-- Payload bytes of the receipt list written by
`LegacyReceipt::rlp_append`: the optional outcome item first, then gas
used, log bloom and the list of logs. -/
def legacyPayload (r : LegacyReceipt) : List Nat :=
  (match r.outcome with
   | .unknown => []
   | .stateRoot root => encStr (beFixed 32 root)
   | .statusCode code => encStr (natToBe code)) ++
  encStr (natToBe r.gas_used) ++
  encStr (beFixed 256 r.log_bloom) ++
  wrapList ((r.logs.map encLog).flatten)

/-- RLP bytes of a legacy receipt (`LegacyReceipt::rlp_append` drained
from a fresh stream): a 3-item list for `Unknown`, a 4-item list with
the outcome first otherwise. -/
def encLegacy (r : LegacyReceipt) : List Nat :=
  wrapList (legacyPayload r)

/-- Structured RLP item corresponding to `encLog`. -/
def logRlpItem (l : LogEntry) : RlpItem :=
  .list [.str (beFixed 20 l.address),
    .list (l.topics.map (fun t => RlpItem.str (beFixed 32 t))),
    .str l.data]

/-- Structured RLP item corresponding to `encLegacy`. -/
def legacyItem (r : LegacyReceipt) : RlpItem :=
  .list
    ((match r.outcome with
      | .unknown => []
      | .stateRoot root => [RlpItem.str (beFixed 32 root)]
      | .statusCode code => [RlpItem.str (natToBe code)]) ++
     [.str (natToBe r.gas_used),
      .str (beFixed 256 r.log_bloom),
      .list (r.logs.map logRlpItem)])

/-- Decoding of one log entry (modelled from the spec's log
collaborator interface): address at 0, topics at 1, data at 2. -/
def LogEntry.decode (rlp : RlpItem) : DR LogEntry := do
  let a ← rlpAt rlp 0
  let address ← asFixed 20 a
  let t ← rlpAt rlp 1
  let topics ← match t with
    | .list its => its.mapM (asFixed 32)
    | .str _ => .err .rlpExpectedToBeList
  let d ← rlpAt rlp 2
  let data ← asBytes d
  pure { address, topics, data }

/-- List of values at an index (`Rlp::list_at` with log-entry values). -/
def listAtLogs (rlp : RlpItem) (i : Nat) : DR (List LogEntry) := do
  let it ← rlpAt rlp i
  match it with
  | .list its => its.mapM LogEntry.decode
  | .str _ => .err .rlpExpectedToBeList

/-- Outcome disambiguation inside the 4-item branch of
`LegacyReceipt::decode`: field 0 is a status code exactly when it is a
plain byte string of length at most one, else a 32-byte state root. -/
def outcomeAt (rlp : RlpItem) : DR TransactionOutcome := do
  let first ← rlpAt rlp 0
  match first with
  | .str bs =>
    if bs.length ≤ 1 then do
      let c ← asU8 first
      pure (.statusCode c)
    else do
      let h ← asFixed 32 first
      pure (.stateRoot h)
  | .list _ => do
    let h ← asFixed 32 first
    pure (.stateRoot h)

/-- Decoder `LegacyReceipt::decode`: dispatch on the RLP item count;
3 items decode with outcome `Unknown`, 4 items carry the outcome in
field 0, anything else is a malformed length. -/
def LegacyReceipt.decode (rlp : RlpItem) : DR LegacyReceipt := do
  match ← itemCount rlp with
  | 3 => do
    let gas_used ← asU256 (← rlpAt rlp 0)
    let log_bloom ← asFixed 256 (← rlpAt rlp 1)
    let logs ← listAtLogs rlp 2
    pure { outcome := .unknown, gas_used, log_bloom, logs }
  | 4 => do
    let gas_used ← asU256 (← rlpAt rlp 1)
    let log_bloom ← asFixed 256 (← rlpAt rlp 2)
    let logs ← listAtLogs rlp 3
    let outcome ← outcomeAt rlp
    pure { gas_used, log_bloom, logs, outcome }
  | _ => .err .rlpIncorrectListLen

/-- Transaction type discriminator (`TypedTxId`, modelled from the
spec: the typed envelope is polymorphic over Legacy and AccessList). -/
inductive TypedTxId where
  | legacy
  | accessList
  deriving DecidableEq, Repr

/-- Modelled from the spec: the transaction-type table lookup
(`TypedTxId::try_from_wire_byte`, not part of the sources).  The
AccessList id is the byte `0x01`; a byte with the high bit set belongs
to the backward-compatible legacy RLP range; anything else is unknown. -/
def TypedTxId.tryFromWireByte (b : Nat) : Option TypedTxId :=
  if b = 0x01 then some .accessList
  else if 0x80 ≤ b then some .legacy
  else none

/-- Receipt of a typed transaction (`TypedReceipt`): the variant
controls only envelope framing, each wraps one `LegacyReceipt`. -/
inductive TypedReceipt where
  | legacy (receipt : LegacyReceipt)
  | accessList (receipt : LegacyReceipt)
  deriving DecidableEq, Repr

/-- Accessor `TypedReceipt::receipt`: the wrapped receipt record. -/
def TypedReceipt.receipt : TypedReceipt → LegacyReceipt
  | .legacy r => r
  | .accessList r => r

/-- Accessor `TypedReceipt::tx_type`. -/
def TypedReceipt.tx_type : TypedReceipt → TypedTxId
  | .legacy _ => .legacy
  | .accessList _ => .accessList

/-- Encoder `TypedReceipt::encode`: legacy receipts are the raw RLP
list bytes, AccessList receipts prepend the type-id byte `0x01`. -/
def TypedReceipt.encode : TypedReceipt → List Nat
  | .legacy r => encLegacy r
  | .accessList r => 0x01 :: encLegacy r

/-- Bytes contributed by `TypedReceipt::rlp_append` inside an outer
stream: legacy receipts append their RLP list directly, AccessList
receipts append the prefixed envelope as one RLP byte string. -/
def encTypedChunk : TypedReceipt → List Nat
  | .legacy r => encLegacy r
  | .accessList r => encStr (0x01 :: encLegacy r)

/-- Structured RLP item corresponding to `encTypedChunk`. -/
def typedItem : TypedReceipt → RlpItem
  | .legacy r => legacyItem r
  | .accessList r => .str (0x01 :: encLegacy r)

/-- Encoder `TypedReceipt::rlp_append_list`: one RLP list whose items
are the receipts' `rlp_append` contributions. -/
def rlpAppendList (list : List TypedReceipt) : List Nat :=
  wrapList ((list.map encTypedChunk).flatten)

/-- Decoder `TypedReceipt::decode` over envelope bytes: empty input is
a malformed length, byte 0 selects the transaction type (unknown ids
fail), and the remaining bytes are RLP-decoded as a receipt list. -/
def TypedReceipt.decodeBytes : List Nat → DR TypedReceipt
  | [] => .err .rlpIncorrectListLen
  | b :: rest =>
    match TypedTxId.tryFromWireByte b with
    | none => .err (.custom "Unknown transaction")
    | some .accessList => do
      let it ← rlpOf rest
      let r ← LegacyReceipt.decode it
      pure (.accessList r)
    | some .legacy => do
      let it ← rlpOf (b :: rest)
      let r ← LegacyReceipt.decode it
      pure (.legacy r)

/-- Decoder `TypedReceipt::decode_rlp` over one RLP view: a list is the
backward-compatible legacy path, anything else is an envelope byte
string handled by `TypedReceipt::decode`. -/
def TypedReceipt.decodeRlp (rlp : RlpItem) : DR TypedReceipt :=
  if rlpIsList rlp then do
    let r ← LegacyReceipt.decode rlp
    pure (.legacy r)
  else do
    let bs ← rlpData rlp
    TypedReceipt.decodeBytes bs

/-- Decoder `TypedReceipt::decode_rlp_list`: the view must be a list
and every item independently follows the dual-mode rule. -/
def TypedReceipt.decodeRlpList (rlp : RlpItem) : DR (List TypedReceipt) :=
  match rlp with
  | .str _ => .err .rlpIncorrectListLen
  | .list its => its.mapM TypedReceipt.decodeRlp

/-- Byte-level composition: `Rlp::new` over a buffer followed by
`LegacyReceipt::decode`. -/
def legacyDecodeBytes (bs : List Nat) : DR LegacyReceipt := do
  LegacyReceipt.decode (← rlpOf bs)

/-- Byte-level composition: `Rlp::new` over a buffer followed by
`TypedReceipt::decode_rlp`. -/
def typedDecodeRlpBytes (bs : List Nat) : DR TypedReceipt := do
  TypedReceipt.decodeRlp (← rlpOf bs)

/-- Byte-level composition: `Rlp::new` over a buffer followed by
`TypedReceipt::decode_rlp_list`. -/
def typedDecodeRlpListBytes (bs : List Nat) : DR (List TypedReceipt) := do
  TypedReceipt.decodeRlpList (← rlpOf bs)

/-- Typed error of the frozen-state JSON load (`serde_json::Error` at
interface level: malformed fields, wrong types, missing fields). -/
inductive JsonError where
  | missingField
  | typeMismatch
  deriving DecidableEq, Repr

/-- Result of a deserialization step: the process may panic (an
`unwrap` on a failed external call), return a typed error, or succeed. -/
inductive DRes (α : Type) where
  | panicked
  | error (e : JsonError)
  | ok (a : α)
  deriving DecidableEq, Repr

instance : Monad DRes where
  pure := .ok
  bind m f := match m with
    | .panicked => .panicked
    | .error e => .error e
    | .ok a => f a

/-- JSON value, the parsed form of the frozen-state resource. -/
inductive Json where
  | null
  | bool (b : Bool)
  | num (n : Nat)
  | str (s : String)
  | arr (xs : List Json)
  | obj (fields : List (String × Json))

/-- Value of one hexadecimal digit character. -/
def hexDigit? (c : Char) : Option Nat :=
  if '0' ≤ c ∧ c ≤ '9' then some (c.toNat - 48)
  else if 'a' ≤ c ∧ c ≤ 'f' then some (c.toNat - 87)
  else if 'A' ≤ c ∧ c ≤ 'F' then some (c.toNat - 55)
  else none

/-- Byte-pairwise hexadecimal decoding (`hex::decode`): fails on an odd
number of digits or on an invalid digit. -/
def hexDecodeAux : List Char → Option (List Nat)
  | [] => some []
  | [_] => none
  | c1 :: c2 :: rest => do
    let h ← hexDigit? c1
    let l ← hexDigit? c2
    let bs ← hexDecodeAux rest
    pure ((16 * h + l) :: bs)

/-- Hexadecimal decoding of a string into bytes (`hex::decode`). -/
def hexDecode (s : String) : Option (List Nat) :=
  hexDecodeAux s.toList

/-- Digit-wise value of a hexadecimal numeral. -/
def hexNatAux : List Char → Nat → Option Nat
  | [], acc => some acc
  | c :: rest, acc =>
    match hexDigit? c with
    | none => none
    | some d => hexNatAux rest (16 * acc + d)

/-- Parsing of a `0x`-prefixed 256-bit hex numeral (`U256` serde). -/
def hexU256? (s : String) : Option Nat :=
  match s.toList with
  | '0' :: 'x' :: ds =>
    if ds ≠ [] ∧ ds.length ≤ 64 then hexNatAux ds 0 else none
  | _ => none

/-- Parsing of a `0x`-prefixed fixed-width hex value of `w` bytes
(`H256`/`Address` serde): exactly `2 * w` digits. -/
def hexFixed? (w : Nat) (s : String) : Option Nat :=
  match s.toList with
  | '0' :: 'x' :: ds =>
    if ds.length = 2 * w then hexNatAux ds 0 else none
  | _ => none

/-- Parsing of a `0x`-prefixed hex byte string (`Bytes` serde). -/
def hexBytes? (s : String) : Option (List Nat) :=
  match s.toList with
  | '0' :: 'x' :: ds => hexDecodeAux ds
  | _ => none

/-- Value of a decimal numeral (`u64` map keys of the frozen state). -/
def decimalNatAux : List Char → Nat → Option Nat
  | [], acc => some acc
  | c :: rest, acc =>
    if '0' ≤ c ∧ c ≤ '9' then decimalNatAux rest (10 * acc + (c.toNat - 48))
    else none

/-- Parsing of a decimal block-number key into an unsigned 64-bit
number. -/
def decimalU64? (s : String) : Option Nat :=
  match s.toList with
  | [] => none
  | cs =>
    match decimalNatAux cs 0 with
    | some n => if n < 2 ^ 64 then some n else none
    | none => none

/-- Modelled from the spec: raw-DEFLATE decompression (`inflate_bytes`
of the external `inflate` crate is not part of the sources).  Only the
partial-function interface matters to the claims; the model decodes
the stored-block subset of DEFLATE (one final stored block: header
byte with BFINAL=1 and BTYPE=00, LEN and its complement NLEN in
little-endian order, then LEN literal bytes) and fails on anything
else. -/
def inflateBytes : List Nat → Option (List Nat)
  | b0 :: l1 :: l2 :: n1 :: n2 :: rest =>
    if b0 % 2 = 1 ∧ b0 / 2 % 4 = 0 ∧ n1 = 255 - l1 ∧ n2 = 255 - l2 ∧
        rest.length = l1 + 256 * l2
    then some rest else none
  | _ => none

/-- Deserializer `deserialize_bloom`: reads the hex string, strips two
characters, hex-decodes and inflates — each failing step is an
`unwrap`/slice panic, not a typed error — then builds the bloom from
exactly 256 bytes (`Bloom::from_slice` panics on any other length). -/
def deserializeBloom (s : String) : DRes Nat :=
  match s.toList with
  | _ :: _ :: stripped =>
    match hexDecodeAux stripped with
    | none => .panicked
    | some compressed =>
      match inflateBytes compressed with
      | none => .panicked
      | some bytes =>
        if bytes.length = 256 then .ok (beToNat bytes) else .panicked
  | _ => .panicked

/-- Field access on a JSON object (serde struct/field visitation). -/
def Json.getField (j : Json) (key : String) : DRes Json :=
  match j with
  | .obj fields =>
    match fields.lookup key with
    | some v => .ok v
    | none => .error .missingField
  | _ => .error .typeMismatch

/-- Deserialization of a log entry from JSON (modelled from the spec's
resource format: address, topics, data). -/
def LogEntry.fromJson (j : Json) : DRes LogEntry := do
  let address ← match ← j.getField "address" with
    | .str s => match hexFixed? 20 s with
      | some n => DRes.ok n
      | none => .error .typeMismatch
    | _ => .error .typeMismatch
  let topics ← match ← j.getField "topics" with
    | .arr xs => xs.mapM fun x => match x with
      | .str s => match hexFixed? 32 s with
        | some n => DRes.ok n
        | none => .error .typeMismatch
      | _ => DRes.error .typeMismatch
    | _ => .error .typeMismatch
  let data ← match ← j.getField "data" with
    | .str s => match hexBytes? s with
      | some bs => DRes.ok bs
      | none => .error .typeMismatch
    | _ => .error .typeMismatch
  pure { address, topics, data }

/-- Deserialization of a transaction outcome (camel-cased externally
tagged enum: `unknown`, `stateRoot`, `statusCode`). -/
def TransactionOutcome.fromJson (j : Json) : DRes TransactionOutcome :=
  match j with
  | .str "unknown" => .ok .unknown
  | .obj [(k, v)] =>
    if k = "unknown" then .ok .unknown
    else if k = "stateRoot" then
      match v with
      | .str s => match hexFixed? 32 s with
        | some n => .ok (.stateRoot n)
        | none => .error .typeMismatch
      | _ => .error .typeMismatch
    else if k = "statusCode" then
      match v with
      | .num n => if n < 256 then .ok (.statusCode n) else .error .typeMismatch
      | _ => .error .typeMismatch
    else .error .typeMismatch
  | _ => .error .typeMismatch

/-- Deserialization of a legacy receipt from JSON (serde derive on
`LegacyReceipt` with `deserialize_bloom` on the bloom field). -/
def LegacyReceipt.fromJson (j : Json) : DRes LegacyReceipt := do
  let gas_used ← match ← j.getField "gasUsed" with
    | .str s => match hexU256? s with
      | some n => DRes.ok n
      | none => .error .typeMismatch
    | _ => .error .typeMismatch
  let log_bloom ← match ← j.getField "logBloom" with
    | .str s => deserializeBloom s
    | _ => .error .typeMismatch
  let logs ← match ← j.getField "logs" with
    | .arr xs => xs.mapM LogEntry.fromJson
    | _ => .error .typeMismatch
  let outcome ← TransactionOutcome.fromJson (← j.getField "outcome")
  pure { gas_used, log_bloom, logs, outcome }

/-- Deserialization of a typed receipt (camel-cased externally tagged
enum: `legacy` or `accessList` wrapping a legacy receipt). -/
def TypedReceipt.fromJson (j : Json) : DRes TypedReceipt :=
  match j with
  | .obj [(k, v)] =>
    if k = "legacy" then do
      let r ← LegacyReceipt.fromJson v
      pure (.legacy r)
    else if k = "accessList" then do
      let r ← LegacyReceipt.fromJson v
      pure (.accessList r)
    else .error .typeMismatch
  | _ => .error .typeMismatch

/-- Direction of a balance change (`Op`). -/
inductive Op where
  | add
  | sub
  deriving DecidableEq, Repr

/-- Deserialization of `Op` (camel-cased unit variants). -/
def Op.fromJson (j : Json) : DRes Op :=
  match j with
  | .str "add" => .ok .add
  | .str "sub" => .ok .sub
  | _ => .error .typeMismatch

/-- A single balance change of an account (`BalanceOp`). -/
structure BalanceOp where
  account : Nat
  amount : Nat
  op : Op
  deriving DecidableEq, Repr

/-- Deserialization of a balance operation; a missing `op` field is a
typed missing-field error. -/
def BalanceOp.fromJson (j : Json) : DRes BalanceOp := do
  let account ← match ← j.getField "account" with
    | .str s => match hexFixed? 20 s with
      | some n => DRes.ok n
      | none => .error .typeMismatch
    | _ => .error .typeMismatch
  let amount ← match ← j.getField "amount" with
    | .str s => match hexU256? s with
      | some n => DRes.ok n
      | none => .error .typeMismatch
    | _ => .error .typeMismatch
  let op ← Op.fromJson (← j.getField "op")
  pure { account, amount, op }

/-- One storage write of a frozen transaction (`StorageChange`). -/
structure StorageChange where
  account : Nat
  key : Nat
  value : Nat
  deriving DecidableEq, Repr

/-- Deserialization of a storage change. -/
def StorageChange.fromJson (j : Json) : DRes StorageChange := do
  let account ← match ← j.getField "account" with
    | .str s => match hexFixed? 20 s with
      | some n => DRes.ok n
      | none => .error .typeMismatch
    | _ => .error .typeMismatch
  let key ← match ← j.getField "key" with
    | .str s => match hexFixed? 32 s with
      | some n => DRes.ok n
      | none => .error .typeMismatch
    | _ => .error .typeMismatch
  let value ← match ← j.getField "value" with
    | .str s => match hexU256? s with
      | some n => DRes.ok n
      | none => .error .typeMismatch
    | _ => .error .typeMismatch
  pure { account, key, value }

/-- All effects of one frozen transaction (`TransactionTrace`). -/
structure TransactionTrace where
  id : Nat
  balance_ops : List BalanceOp
  storage_changes : List StorageChange
  receipt : TypedReceipt
  deriving DecidableEq, Repr

/-- Deserialization of a transaction trace. -/
def TransactionTrace.fromJson (j : Json) : DRes TransactionTrace := do
  let id ← match ← j.getField "id" with
    | .str s => match hexFixed? 32 s with
      | some n => DRes.ok n
      | none => .error .typeMismatch
    | _ => .error .typeMismatch
  let balance_ops ← match ← j.getField "balanceOps" with
    | .arr xs => xs.mapM BalanceOp.fromJson
    | _ => .error .typeMismatch
  let storage_changes ← match ← j.getField "storageChanges" with
    | .arr xs => xs.mapM StorageChange.fromJson
    | _ => .error .typeMismatch
  let receipt ← TypedReceipt.fromJson (← j.getField "receipt")
  pure { id, balance_ops, storage_changes, receipt }

/-- Ordered-map insertion (std `BTreeMap::insert` at interface level):
keeps the association list strictly sorted by key, overwriting the
value at an already-present key. -/
def btreeInsert {α : Type} (k : Nat) (v : α) :
    List (Nat × α) → List (Nat × α)
  | [] => [(k, v)]
  | (k', v') :: rest =>
    if k < k' then (k, v) :: (k', v') :: rest
    else if k = k' then (k, v) :: rest
    else (k', v') :: btreeInsert k v rest

/-- The frozen registry (`FrozenChainState`): an ordered map from block
number to the traces of that block, represented as a sorted
association list. -/
def FrozenChainState := List (Nat × List TransactionTrace)

/-- Loader `restore_frozen_state`: one bulk deserialization of the
JSON resource — every entry's decimal key becomes a `u64`, every value
an array of traces, inserted into the ordered map in document order. -/
def restoreFrozenState (j : Json) : DRes (List (Nat × List TransactionTrace)) :=
  match j with
  | .obj fields =>
    fields.foldlM
      (fun st kv => do
        let k ← match decimalU64? kv.1 with
          | some k => DRes.ok k
          | none => .error .typeMismatch
        let traces ← match kv.2 with
          | .arr xs => xs.mapM TransactionTrace.fromJson
          | _ => .error .typeMismatch
        pure (btreeInsert k traces st))
      []
  | _ => .error .typeMismatch

/-- Well-formedness of a log entry as machine data: a 160-bit address,
256-bit topics, byte-valued data, and an encoding that fits in a
`usize`-addressed buffer. -/
def LogEntry.wfb (l : LogEntry) : Bool :=
  decide (l.address < 2 ^ 160) && l.topics.all (fun t => decide (t < 2 ^ 256)) &&
  l.data.all (fun b => decide (b < 256)) && decide ((encLog l).length < 2 ^ 64)

/-- Well-formedness of an outcome as machine data: a 256-bit state root
or a `u8` status code. -/
def outcomeWfb : TransactionOutcome → Bool
  | .unknown => true
  | .stateRoot root => decide (root < 2 ^ 256)
  | .statusCode code => decide (code < 256)

/-- Well-formedness of a legacy receipt as machine data: a `U256` gas
value, a 2048-bit bloom, well-formed logs and outcome, and an encoding
that fits in a `usize`-addressed buffer. -/
def LegacyReceipt.wfb (r : LegacyReceipt) : Bool :=
  decide (r.gas_used < 2 ^ 256) && decide (r.log_bloom < 2 ^ 2048) &&
  outcomeWfb r.outcome && r.logs.all LogEntry.wfb &&
  decide ((encLegacy r).length < 2 ^ 64)

/-- Well-formedness of a typed receipt: that of the wrapped receipt;
an AccessList envelope must additionally fit in a `usize`-addressed
buffer after the type-id byte is prepended. -/
def TypedReceipt.wfb : TypedReceipt → Bool
  | .legacy r => r.wfb
  | .accessList r => r.wfb && decide ((0x01 :: encLegacy r).length < 2 ^ 64)

/-- Well-formedness of a receipt batch: every receipt is well formed
and the batch encoding fits in a `usize`-addressed buffer. -/
def typedListWfb (L : List TypedReceipt) : Bool :=
  L.all TypedReceipt.wfb && decide ((rlpAppendList L).length < 2 ^ 64)

/-- A byte chunk parses (with enough fuel) to exactly one RLP item,
consuming exactly itself. -/
def OneChunk (c : List Nat) (it : RlpItem) : Prop :=
  c ≠ [] ∧ ∀ fuel rest, c.length ≤ fuel →
    parseOneF fuel (c ++ rest) = some (it, rest)

/-- A payload parses (with enough fuel) to exactly this item sequence,
consuming everything. -/
def ManyTo (p : List Nat) (its : List RlpItem) : Prop :=
  ∀ fuel, p.length + 1 ≤ fuel → parseMany fuel p = some its

/-- Frozen-state JSON fixture with one complete trace whose receipt
has a `logBloom` string that is not valid hexadecimal. -/
def frozenFixtureBadBloom : Json :=
  .obj [("1", .arr [.obj [
    ("id", .str "0x0000000000000000000000000000000000000000000000000000000000000001"),
    ("balanceOps", .arr []),
    ("storageChanges", .arr []),
    ("receipt", .obj [("legacy", .obj [
      ("gasUsed", .str "0x1"),
      ("logBloom", .str "0xzz"),
      ("logs", .arr []),
      ("outcome", .obj [("statusCode", .num 1)])])])]])]

/-- Frozen-state JSON fixture whose single balance operation is
missing its `op` field. -/
def frozenFixtureMissingOp : Json :=
  .obj [("1", .arr [.obj [
    ("id", .str "0x0000000000000000000000000000000000000000000000000000000000000001"),
    ("balanceOps", .arr [.obj [
      ("account", .str "0x05ba9a1d453ed591f70e5884a5eded482400bb62"),
      ("amount", .str "0x642fc026aa8000")]]),
    ("storageChanges", .arr []),
    ("receipt", .obj [("legacy", .obj [
      ("gasUsed", .str "0x1"),
      ("logBloom", .str "0x010001fffe"),
      ("logs", .arr []),
      ("outcome", .obj [("statusCode", .num 1)])])])]])]

/-- Sample log entry mirroring the receipt tests' single log. -/
def sampleLog : LogEntry :=
  { address := 0xdcf421d093428b096ca501a7cd1a740855a7976f
    topics := []
    data := List.replicate 32 0 }

/-- Sample receipt mirroring the receipt tests (gas `0x40cae`, one
log), parameterized by the outcome. -/
def sampleReceipt (o : TransactionOutcome) : LegacyReceipt :=
  LegacyReceipt.new o 0x40cae [sampleLog]

theorem natToBeAux_zero (f : Nat) : natToBeAux f 0 = [] := by
  cases f <;> rfl

theorem natToBeAux_fuel (n : Nat) : ∀ f g, n ≤ f → n ≤ g →
    natToBeAux f n = natToBeAux g n := by
  induction n using Nat.strong_induction_on with
  | _ n ih =>
    intro f g hf hg
    match n, f, g with
    | 0, f, g => rw [natToBeAux_zero, natToBeAux_zero]
    | n + 1, f + 1, g + 1 =>
      have hdiv : (n + 1) / 256 < n + 1 := Nat.div_lt_self (Nat.succ_pos n) (by omega)
      have h1 : (n + 1) / 256 ≤ f := by omega
      have h2 : (n + 1) / 256 ≤ g := by omega
      simp only [natToBeAux]
      rw [ih ((n + 1) / 256) hdiv f g h1 h2]

theorem natToBe_zero : natToBe 0 = [] := rfl

theorem natToBe_succ (n : Nat) (h : 0 < n) :
    natToBe n = natToBe (n / 256) ++ [n % 256] := by
  match n, h with
  | n + 1, _ =>
    show natToBeAux (n + 1) (n + 1) = _
    have hdiv : (n + 1) / 256 < n + 1 := Nat.div_lt_self (Nat.succ_pos n) (by omega)
    simp only [natToBeAux, natToBe]
    rw [natToBeAux_fuel ((n + 1) / 256) n ((n + 1) / 256) (by omega) (le_refl _)]

theorem beToNat_append_singleton (xs : List Nat) (d : Nat) :
    beToNat (xs ++ [d]) = 256 * beToNat xs + d := by
  simp only [beToNat, List.foldl_append, List.foldl_cons, List.foldl_nil]
  omega

theorem beToNat_natToBe (n : Nat) : beToNat (natToBe n) = n := by
  induction n using Nat.strong_induction_on with
  | _ n ih =>
    match n with
    | 0 => rfl
    | n + 1 =>
      have hdiv : (n + 1) / 256 < n + 1 := Nat.div_lt_self (Nat.succ_pos n) (by omega)
      rw [natToBe_succ (n + 1) (Nat.succ_pos n), beToNat_append_singleton,
        ih ((n + 1) / 256) hdiv]
      omega

theorem natToBe_length_le (k : Nat) (n : Nat) (h : n < 256 ^ k) :
    (natToBe n).length ≤ k := by
  induction n using Nat.strong_induction_on generalizing k with
  | _ n ih =>
    match n with
    | 0 => simp [natToBe_zero]
    | n + 1 =>
      match k with
      | 0 => omega
      | k + 1 =>
        have hdiv : (n + 1) / 256 < n + 1 := Nat.div_lt_self (Nat.succ_pos n) (by omega)
        have hlt : (n + 1) / 256 < 256 ^ k := by
          have := Nat.div_lt_iff_lt_mul (x := n + 1) (y := 256 ^ k) (k := 256) (by omega)
          rw [this]
          calc n + 1 < 256 ^ (k + 1) := h
            _ = 256 ^ k * 256 := by ring
        rw [natToBe_succ (n + 1) (Nat.succ_pos n)]
        have := ih ((n + 1) / 256) hdiv k hlt
        simp only [List.length_append, List.length_cons, List.length_nil]
        omega

theorem natToBe_eq_nil_iff (n : Nat) : natToBe n = [] ↔ n = 0 := by
  constructor
  · intro h
    by_contra hn
    rw [natToBe_succ n (Nat.pos_of_ne_zero hn)] at h
    simp at h
  · intro h; subst h; rfl

theorem natToBe_head_pos (n : Nat) (h : 0 < n) :
    ∃ d ds, natToBe n = d :: ds ∧ 0 < d := by
  induction n using Nat.strong_induction_on with
  | _ n ih =>
    rcases Nat.lt_or_ge n 256 with hsmall | hbig
    · refine ⟨n, [], ?_, h⟩
      rw [natToBe_succ n h, Nat.div_eq_of_lt hsmall, natToBe_zero,
        Nat.mod_eq_of_lt hsmall]
      rfl
    · have hdivpos : 0 < n / 256 := Nat.div_pos hbig (by omega)
      have hdiv : n / 256 < n := Nat.div_lt_self h (by omega)
      obtain ⟨d, ds, heq, hd⟩ := ih (n / 256) hdiv hdivpos
      exact ⟨d, ds ++ [n % 256], by rw [natToBe_succ n h, heq]; rfl, hd⟩

theorem natToBe_ne_zero_cons (n : Nat) (ds : List Nat) :
    natToBe n ≠ 0 :: ds := by
  intro h
  match n, Nat.eq_zero_or_pos n with
  | _, .inl rfl => simp [natToBe_zero] at h
  | n, .inr hpos =>
    obtain ⟨d, ds', heq, hd⟩ := natToBe_head_pos n hpos
    rw [heq] at h
    cases h
    omega

theorem beFixed_length (w n : Nat) (h : n < 256 ^ w) :
    (beFixed w n).length = w := by
  have := natToBe_length_le w n h
  simp only [beFixed, List.length_append, List.length_replicate]
  omega

theorem beToNat_replicate_zero_append (k : Nat) (ds : List Nat) :
    beToNat (List.replicate k 0 ++ ds) = beToNat ds := by
  have hz : ∀ m, List.foldl (fun a d => a * 256 + d) 0 (List.replicate m 0) = 0 := by
    intro m
    induction m with
    | zero => rfl
    | succ m ihm => simpa [List.replicate_succ] using ihm
  simp only [beToNat, List.foldl_append, hz]

theorem beToNat_beFixed (w n : Nat) : beToNat (beFixed w n) = n := by
  rw [beFixed, beToNat_replicate_zero_append, beToNat_natToBe]

theorem lenHeader_length_pos (base n : Nat) : 0 < (lenHeader base n).length := by
  rw [lenHeader]
  split <;> simp

theorem length_le_encStr (bs : List Nat) : bs.length ≤ (encStr bs).length := by
  rw [encStr]
  split
  · exact le_refl _
  · simp

theorem length_lt_wrapList (p : List Nat) : p.length < (wrapList p).length := by
  have := lenHeader_length_pos 0xc0 p.length
  simp only [wrapList, List.length_append]
  omega

theorem encStr_ne_nil (bs : List Nat) : encStr bs ≠ [] := by
  rw [encStr]
  split
  · rename_i h
    intro hc
    rw [hc] at h
    simp at h
  · intro hc
    have := lenHeader_length_pos 0x80 bs.length
    rw [← List.length_eq_zero] at hc
    simp only [List.length_append] at hc
    omega

theorem wrapList_ne_nil (p : List Nat) : wrapList p ≠ [] := by
  intro hc
  have := length_lt_wrapList p
  rw [hc] at this
  simp at this

theorem splitHeader_lenHeader_str (L : List Nat) (rest : List Nat)
    (h : L.length < 2 ^ 64) :
    splitHeader ((lenHeader 0x80 L.length ++ L) ++ rest) = some (false, L, rest) := by
  rcases le_or_lt L.length 55 with hle | hgt
  · have hre : (lenHeader 0x80 L.length ++ L) ++ rest
        = (0x80 + L.length) :: (L ++ rest) := by
      rw [lenHeader, if_pos hle]
      simp
    rw [hre, splitHeader, if_neg (by omega), if_pos (by omega)]
    have harg : 0x80 + L.length - 0x80 = L.length := by omega
    rw [harg, if_pos (by simp)]
    rw [List.take_left, List.drop_left]
  · have hll1 : 0 < (natToBe L.length).length := by
      rcases List.eq_nil_or_concat (natToBe L.length) with hnil | hcat
      · rw [natToBe_eq_nil_iff] at hnil
        omega
      · obtain ⟨xs, x, hx⟩ := hcat
        simp [hx]
    have hll8 : (natToBe L.length).length ≤ 8 := natToBe_length_le 8 L.length h
    have hre : (lenHeader 0x80 L.length ++ L) ++ rest
        = (0x80 + 55 + (natToBe L.length).length)
          :: (natToBe L.length ++ (L ++ rest)) := by
      rw [lenHeader, if_neg (by omega)]
      simp
    rw [hre, splitHeader, if_neg (by omega), if_neg (by omega), if_pos (by omega)]
    have harg : 0x80 + 55 + (natToBe L.length).length - 0xb7
        = (natToBe L.length).length := by omega
    rw [harg, if_pos (by simp)]
    rw [List.take_left, List.drop_left, beToNat_natToBe, if_pos (by simp)]
    rw [List.take_left, List.drop_left]

theorem splitHeader_encStr (bs rest : List Nat) (h : bs.length < 2 ^ 64) :
    splitHeader (encStr bs ++ rest) = some (false, bs, rest) := by
  rw [encStr]
  by_cases hone : bs.length = 1 ∧ bs.headD 0 < 0x80
  · rw [if_pos hone]
    obtain ⟨hlen, hb⟩ := hone
    match bs, hlen with
    | [b], _ =>
      simp only [List.headD] at hb
      show splitHeader (b :: rest) = _
      rw [splitHeader, if_pos hb]
  · rw [if_neg hone]
    exact splitHeader_lenHeader_str bs rest h

theorem splitHeader_wrapList (p rest : List Nat) (h : p.length < 2 ^ 64) :
    splitHeader (wrapList p ++ rest) = some (true, p, rest) := by
  rcases le_or_lt p.length 55 with hle | hgt
  · have hre : wrapList p ++ rest = (0xc0 + p.length) :: (p ++ rest) := by
      rw [wrapList, lenHeader, if_pos hle]
      simp
    rw [hre, splitHeader, if_neg (by omega), if_neg (by omega), if_neg (by omega),
      if_pos (by omega)]
    have harg : 0xc0 + p.length - 0xc0 = p.length := by omega
    rw [harg, if_pos (by simp)]
    rw [List.take_left, List.drop_left]
  · have hll1 : 0 < (natToBe p.length).length := by
      rcases List.eq_nil_or_concat (natToBe p.length) with hnil | hcat
      · rw [natToBe_eq_nil_iff] at hnil
        omega
      · obtain ⟨xs, x, hx⟩ := hcat
        simp [hx]
    have hll8 : (natToBe p.length).length ≤ 8 := natToBe_length_le 8 p.length h
    have hre : wrapList p ++ rest
        = (0xc0 + 55 + (natToBe p.length).length)
          :: (natToBe p.length ++ (p ++ rest)) := by
      rw [wrapList, lenHeader, if_neg (by omega)]
      simp
    rw [hre, splitHeader, if_neg (by omega), if_neg (by omega), if_neg (by omega),
      if_neg (by omega)]
    have harg : 0xc0 + 55 + (natToBe p.length).length - 0xf7
        = (natToBe p.length).length := by omega
    rw [harg, if_pos (by simp)]
    rw [List.take_left, List.drop_left, beToNat_natToBe, if_pos (by simp)]
    rw [List.take_left, List.drop_left]

theorem parseMany_cons_eq (f : Nat) (b : Nat) (bs : List Nat) :
    parseMany (f + 1) (b :: bs) =
      match parseOneF f (b :: bs) with
      | none => none
      | some (it, rest) =>
        match parseMany f rest with
        | none => none
        | some its => some (it :: its) := by
  cases hsh : splitHeader (b :: bs) with
  | none => simp [parseMany, parseOneF, hsh]
  | some tri =>
    obtain ⟨isList, payload, rest⟩ := tri
    cases isList with
    | false =>
      cases hpr : parseMany f rest <;> simp [parseMany, parseOneF, hsh, hpr]
    | true =>
      cases hpm : parseMany f payload with
      | none => simp [parseMany, parseOneF, hsh, hpm]
      | some its =>
        cases hpr : parseMany f rest <;>
          simp [parseMany, parseOneF, hsh, hpm, hpr]

theorem manyTo_nil : ManyTo [] [] := by
  intro fuel _
  cases fuel <;> rfl

theorem manyTo_cons (c p : List Nat) (it : RlpItem) (its : List RlpItem)
    (h1 : OneChunk c it) (h2 : ManyTo p its) : ManyTo (c ++ p) (it :: its) := by
  intro fuel hf
  obtain ⟨hne, hc⟩ := h1
  match c, hne with
  | x :: c', _ =>
    simp only [List.length_append, List.length_cons] at hf
    match fuel, hf with
    | f + 1, _ =>
      rw [List.cons_append, parseMany_cons_eq f x (c' ++ p), ← List.cons_append,
        hc f p (by simp; omega)]
      simp [h2 f (by omega)]

theorem oneChunk_encStr (bs : List Nat) (h : bs.length < 2 ^ 64) :
    OneChunk (encStr bs) (.str bs) := by
  refine ⟨encStr_ne_nil bs, ?_⟩
  intro fuel rest _
  simp only [parseOneF]
  rw [splitHeader_encStr bs rest h]
  simp

theorem oneChunk_wrapList (p : List Nat) (its : List RlpItem)
    (h2 : ManyTo p its) (h : p.length < 2 ^ 64) :
    OneChunk (wrapList p) (.list its) := by
  refine ⟨wrapList_ne_nil p, ?_⟩
  intro fuel rest hfuel
  have hf : p.length + 1 ≤ fuel := by
    have := length_lt_wrapList p
    omega
  simp only [parseOneF]
  rw [splitHeader_wrapList p rest h]
  simp [h2 fuel hf]

theorem rlpOf_oneChunk (c : List Nat) (it : RlpItem) (h : OneChunk c it) :
    rlpOf c = .ok it := by
  obtain ⟨hne, hc⟩ := h
  have hp := hc c.length [] (le_refl _)
  rw [List.append_nil] at hp
  rw [rlpOf, hp]

theorem manyTo_flatten {β : Type} (enc : β → List Nat) (itf : β → RlpItem)
    (xs : List β) (h : ∀ x ∈ xs, OneChunk (enc x) (itf x)) :
    ManyTo ((xs.map enc).flatten) (xs.map itf) := by
  induction xs with
  | nil => simpa using manyTo_nil
  | cons x xs ih =>
    have hx := h x (by simp)
    have hxs := ih (fun y hy => h y (by simp [hy]))
    simpa using manyTo_cons (enc x) ((xs.map enc).flatten) (itf x) (xs.map itf) hx hxs

theorem pow256_32 : (256 : Nat) ^ 32 = 2 ^ 256 := by norm_num
theorem pow256_20 : (256 : Nat) ^ 20 = 2 ^ 160 := by norm_num
theorem pow256_256 : (256 : Nat) ^ 256 = 2 ^ 2048 := by norm_num

theorem oneChunk_beFixed (w n : Nat) (hw : n < 256 ^ w) (hw64 : w < 2 ^ 64) :
    OneChunk (encStr (beFixed w n)) (.str (beFixed w n)) := by
  apply oneChunk_encStr
  rw [beFixed_length w n hw]
  exact hw64

theorem oneChunk_encLog (l : LogEntry) (h : l.wfb = true) :
    OneChunk (encLog l) (logRlpItem l) := by
  rw [LogEntry.wfb] at h
  simp only [Bool.and_eq_true, List.all_eq_true, decide_eq_true_eq] at h
  obtain ⟨⟨⟨ha, ht⟩, _⟩, hlen⟩ := h
  have hp : (encStr (beFixed 20 l.address) ++
      wrapList ((l.topics.map (fun t => encStr (beFixed 32 t))).flatten) ++
      encStr l.data).length < 2 ^ 64 := by
    have := length_lt_wrapList (encStr (beFixed 20 l.address) ++
      wrapList ((l.topics.map (fun t => encStr (beFixed 32 t))).flatten) ++
      encStr l.data)
    rw [encLog] at hlen
    omega
  have htf : ((l.topics.map (fun t => encStr (beFixed 32 t))).flatten).length
      < 2 ^ 64 := by
    have h1 := length_lt_wrapList
      ((l.topics.map (fun t => encStr (beFixed 32 t))).flatten)
    simp only [List.length_append] at hp
    omega
  have hdata : l.data.length < 2 ^ 64 := by
    have h1 := length_le_encStr l.data
    simp only [List.length_append] at hp
    omega
  have mTopics : ManyTo ((l.topics.map (fun t => encStr (beFixed 32 t))).flatten)
      (l.topics.map (fun t => RlpItem.str (beFixed 32 t))) := by
    apply manyTo_flatten
    intro t htin
    exact oneChunk_beFixed 32 t (by rw [pow256_32]; exact ht t htin) (by norm_num)
  have c1 : OneChunk (encStr (beFixed 20 l.address)) (.str (beFixed 20 l.address)) :=
    oneChunk_beFixed 20 l.address (by rw [pow256_20]; exact ha) (by norm_num)
  have c2 : OneChunk
      (wrapList ((l.topics.map (fun t => encStr (beFixed 32 t))).flatten))
      (.list (l.topics.map (fun t => RlpItem.str (beFixed 32 t)))) :=
    oneChunk_wrapList _ _ mTopics htf
  have c3 : OneChunk (encStr l.data) (.str l.data) := oneChunk_encStr _ hdata
  have mp := manyTo_cons _ _ _ _ c1 (manyTo_cons _ _ _ _ c2
    (manyTo_cons _ _ _ _ c3 manyTo_nil))
  rw [List.append_nil] at mp
  have heq : encStr (beFixed 20 l.address) ++
      (wrapList ((l.topics.map (fun t => encStr (beFixed 32 t))).flatten) ++
        encStr l.data) =
      encStr (beFixed 20 l.address) ++
      wrapList ((l.topics.map (fun t => encStr (beFixed 32 t))).flatten) ++
      encStr l.data := by
    simp [List.append_assoc]
  rw [heq] at mp
  exact oneChunk_wrapList _ _ mp hp

theorem oneChunk_encLegacy (r : LegacyReceipt) (h : r.wfb = true) :
    OneChunk (encLegacy r) (legacyItem r) := by
  rw [LegacyReceipt.wfb] at h
  simp only [Bool.and_eq_true, List.all_eq_true, decide_eq_true_eq] at h
  obtain ⟨⟨⟨⟨hgas, hbloom⟩, hout⟩, hlogs⟩, hlen⟩ := h
  have hp : (legacyPayload r).length < 2 ^ 64 := by
    have := length_lt_wrapList (legacyPayload r)
    rw [encLegacy] at hlen
    omega
  have hlf : ((r.logs.map encLog).flatten).length < 2 ^ 64 := by
    have h1 := length_lt_wrapList ((r.logs.map encLog).flatten)
    rw [legacyPayload] at hp
    simp only [List.length_append] at hp
    omega
  have mLogs : ManyTo ((r.logs.map encLog).flatten) (r.logs.map logRlpItem) :=
    manyTo_flatten encLog logRlpItem r.logs
      (fun l hl => oneChunk_encLog l (hlogs l hl))
  have cLogs : OneChunk (wrapList ((r.logs.map encLog).flatten))
      (.list (r.logs.map logRlpItem)) := oneChunk_wrapList _ _ mLogs hlf
  have cGas : OneChunk (encStr (natToBe r.gas_used)) (.str (natToBe r.gas_used)) := by
    apply oneChunk_encStr
    have := natToBe_length_le 32 r.gas_used (by rw [pow256_32]; exact hgas)
    omega
  have cBloom : OneChunk (encStr (beFixed 256 r.log_bloom))
      (.str (beFixed 256 r.log_bloom)) :=
    oneChunk_beFixed 256 r.log_bloom (by rw [pow256_256]; exact hbloom) (by norm_num)
  have tailMany : ManyTo
      (encStr (natToBe r.gas_used) ++ (encStr (beFixed 256 r.log_bloom) ++
        (wrapList ((r.logs.map encLog).flatten) ++ [])))
      [.str (natToBe r.gas_used), .str (beFixed 256 r.log_bloom),
        .list (r.logs.map logRlpItem)] :=
    manyTo_cons _ _ _ _ cGas (manyTo_cons _ _ _ _ cBloom
      (manyTo_cons _ _ _ _ cLogs manyTo_nil))
  rw [List.append_nil] at tailMany
  cases houtc : r.outcome with
  | unknown =>
    have hpl : legacyPayload r = encStr (natToBe r.gas_used) ++
        (encStr (beFixed 256 r.log_bloom) ++
          wrapList ((r.logs.map encLog).flatten)) := by
      rw [legacyPayload, houtc]
      simp [List.append_assoc]
    have hit : legacyItem r = .list [.str (natToBe r.gas_used),
        .str (beFixed 256 r.log_bloom), .list (r.logs.map logRlpItem)] := by
      rw [legacyItem, houtc]
      rfl
    rw [show encLegacy r = wrapList (legacyPayload r) from rfl, hit, hpl]
    rw [hpl] at hp
    exact oneChunk_wrapList _ _ tailMany hp
  | stateRoot root =>
    rw [houtc] at hout
    simp only [outcomeWfb, decide_eq_true_eq] at hout
    have cOut : OneChunk (encStr (beFixed 32 root)) (.str (beFixed 32 root)) :=
      oneChunk_beFixed 32 root (by rw [pow256_32]; exact hout) (by norm_num)
    have hpl : legacyPayload r = encStr (beFixed 32 root) ++
        (encStr (natToBe r.gas_used) ++ (encStr (beFixed 256 r.log_bloom) ++
          wrapList ((r.logs.map encLog).flatten))) := by
      rw [legacyPayload, houtc]
      simp [List.append_assoc]
    have hit : legacyItem r = .list (RlpItem.str (beFixed 32 root) ::
        [.str (natToBe r.gas_used), .str (beFixed 256 r.log_bloom),
          .list (r.logs.map logRlpItem)]) := by
      rw [legacyItem, houtc]
      rfl
    rw [show encLegacy r = wrapList (legacyPayload r) from rfl, hit, hpl]
    rw [hpl] at hp
    exact oneChunk_wrapList _ _ (manyTo_cons _ _ _ _ cOut tailMany) hp
  | statusCode code =>
    rw [houtc] at hout
    simp only [outcomeWfb, decide_eq_true_eq] at hout
    have cOut : OneChunk (encStr (natToBe code)) (.str (natToBe code)) := by
      apply oneChunk_encStr
      have := natToBe_length_le 1 code (by simpa using hout)
      omega
    have hpl : legacyPayload r = encStr (natToBe code) ++
        (encStr (natToBe r.gas_used) ++ (encStr (beFixed 256 r.log_bloom) ++
          wrapList ((r.logs.map encLog).flatten))) := by
      rw [legacyPayload, houtc]
      simp [List.append_assoc]
    have hit : legacyItem r = .list (RlpItem.str (natToBe code) ::
        [.str (natToBe r.gas_used), .str (beFixed 256 r.log_bloom),
          .list (r.logs.map logRlpItem)]) := by
      rw [legacyItem, houtc]
      rfl
    rw [show encLegacy r = wrapList (legacyPayload r) from rfl, hit, hpl]
    rw [hpl] at hp
    exact oneChunk_wrapList _ _ (manyTo_cons _ _ _ _ cOut tailMany) hp

@[simp] theorem DR.bind_ok {α β : Type} (a : α) (f : α → DR β) :
    (DR.ok a >>= f) = f a := rfl

@[simp] theorem DR.bind_err {α β : Type} (e : DecoderError) (f : α → DR β) :
    (DR.err e >>= f) = .err e := rfl

@[simp] theorem DR.pure_eq {α : Type} (a : α) : (pure a : DR α) = .ok a := rfl


theorem asU256_natToBe (n : Nat) (h : n < 2 ^ 256) :
    asU256 (.str (natToBe n)) = .ok n := by
  have hlen : (natToBe n).length ≤ 32 :=
    natToBe_length_le 32 n (by rw [pow256_32]; exact h)
  rcases heq : natToBe n with _ | ⟨d, ds⟩
  · have : n = 0 := (natToBe_eq_nil_iff n).mp heq
    subst this
    rfl
  · rcases d with _ | d'
    · exact absurd heq (natToBe_ne_zero_cons n ds)
    · have hbe : beToNat ((d' + 1) :: ds) = n := by
        rw [← heq, beToNat_natToBe]
      rw [heq] at hlen
      show (if ((d' + 1) :: ds).length ≤ 32
        then DR.ok (beToNat ((d' + 1) :: ds)) else DR.err .rlpIsTooBig) = DR.ok n
      rw [if_pos hlen, hbe]

theorem asU8_natToBe (c : Nat) (h : c < 256) :
    asU8 (.str (natToBe c)) = .ok c := by
  rcases Nat.eq_zero_or_pos c with rfl | hpos
  · rfl
  · have hone : natToBe c = [c] := by
      rw [natToBe_succ c hpos, Nat.div_eq_of_lt h, Nat.mod_eq_of_lt h, natToBe_zero]
      rfl
    rw [hone]
    simp [asU8, Nat.pos_iff_ne_zero.mp hpos]

theorem asFixed_beFixed (w n : Nat) (h : n < 256 ^ w) :
    asFixed w (.str (beFixed w n)) = .ok n := by
  simp [asFixed, beFixed_length w n h, beToNat_beFixed]

theorem natToBe_length_le_one (c : Nat) (h : c < 256) :
    (natToBe c).length ≤ 1 :=
  natToBe_length_le 1 c (by simpa using h)

theorem mapM_asFixed32 (ts : List Nat) (h : ∀ t ∈ ts, t < 2 ^ 256) :
    (ts.map (fun t => RlpItem.str (beFixed 32 t))).mapM (asFixed 32) = .ok ts := by
  induction ts with
  | nil => rfl
  | cons t ts ih =>
    have ht : t < 256 ^ 32 := by rw [pow256_32]; exact h t (by simp)
    have hts : List.mapM.loop (asFixed 32)
        (ts.map (fun t => RlpItem.str (beFixed 32 t))) [] = DR.ok ts :=
      ih (fun x hx => h x (by simp [hx]))
    rw [List.map_cons, List.mapM_cons, asFixed_beFixed 32 t ht]
    rw [show ((ts.map (fun t => RlpItem.str (beFixed 32 t))).mapM (asFixed 32) : DR (List Nat))
      = List.mapM.loop (asFixed 32) (ts.map (fun t => RlpItem.str (beFixed 32 t))) [] from rfl]
    rw [hts]
    rfl

theorem logDecode_item (l : LogEntry) (h : l.wfb = true) :
    LogEntry.decode (logRlpItem l) = .ok l := by
  rw [LogEntry.wfb] at h
  simp only [Bool.and_eq_true, List.all_eq_true, decide_eq_true_eq] at h
  obtain ⟨⟨⟨ha, ht⟩, _⟩, _⟩ := h
  have haddr : asFixed 20 (.str (beFixed 20 l.address)) = .ok l.address :=
    asFixed_beFixed 20 l.address (by rw [pow256_20]; exact ha)
  have htop := mapM_asFixed32 l.topics (fun t htin => ht t htin)
  show (do
    let address ← asFixed 20 (RlpItem.str (beFixed 20 l.address))
    let topics ← (l.topics.map (fun t => RlpItem.str (beFixed 32 t))).mapM (asFixed 32)
    let data ← asBytes (RlpItem.str l.data)
    pure { address, topics, data : LogEntry }) = DR.ok l
  rw [haddr]
  simp only [DR.bind_ok]
  rw [htop]
  simp only [DR.bind_ok, asBytes, DR.pure_eq]

theorem mapM_logDecode (logs : List LogEntry) (h : ∀ l ∈ logs, l.wfb = true) :
    (logs.map logRlpItem).mapM LogEntry.decode = .ok logs := by
  induction logs with
  | nil => rfl
  | cons l logs ih =>
    have hl := logDecode_item l (h l (by simp))
    have hls : List.mapM.loop LogEntry.decode (logs.map logRlpItem) [] = DR.ok logs :=
      ih (fun x hx => h x (by simp [hx]))
    rw [List.map_cons, List.mapM_cons, hl]
    rw [show ((logs.map logRlpItem).mapM LogEntry.decode : DR (List LogEntry))
      = List.mapM.loop LogEntry.decode (logs.map logRlpItem) [] from rfl]
    rw [hls]
    rfl

theorem legacyDecode_item (r : LegacyReceipt) (h : r.wfb = true) :
    LegacyReceipt.decode (legacyItem r) = .ok r := by
  have hwf := h
  rw [LegacyReceipt.wfb] at hwf
  simp only [Bool.and_eq_true, List.all_eq_true, decide_eq_true_eq] at hwf
  obtain ⟨⟨⟨⟨hgas, hbloom⟩, hout⟩, hlogs⟩, _⟩ := hwf
  have hgasd : asU256 (.str (natToBe r.gas_used)) = .ok r.gas_used :=
    asU256_natToBe r.gas_used hgas
  have hbloomd : asFixed 256 (.str (beFixed 256 r.log_bloom)) = .ok r.log_bloom :=
    asFixed_beFixed 256 r.log_bloom (by rw [pow256_256]; exact hbloom)
  have hlogsd : List.mapM.loop LogEntry.decode (r.logs.map logRlpItem) []
      = DR.ok r.logs := mapM_logDecode r.logs hlogs
  cases houtc : r.outcome with
  | unknown =>
    have hit : legacyItem r = .list [.str (natToBe r.gas_used),
        .str (beFixed 256 r.log_bloom), .list (r.logs.map logRlpItem)] := by
      rw [legacyItem, houtc]
      rfl
    rw [hit]
    show (do
      let gas_used ← asU256 (RlpItem.str (natToBe r.gas_used))
      let log_bloom ← asFixed 256 (RlpItem.str (beFixed 256 r.log_bloom))
      let logs ← List.mapM.loop LogEntry.decode (r.logs.map logRlpItem) []
      pure { outcome := TransactionOutcome.unknown, gas_used, log_bloom, logs })
      = DR.ok r
    rw [hgasd]
    simp only [DR.bind_ok]
    rw [hbloomd]
    simp only [DR.bind_ok]
    rw [hlogsd]
    simp only [DR.bind_ok, DR.pure_eq]
    rw [← houtc]
  | stateRoot root =>
    rw [houtc] at hout
    simp only [outcomeWfb, decide_eq_true_eq] at hout
    have hlen32 : (beFixed 32 root).length = 32 :=
      beFixed_length 32 root (by rw [pow256_32]; exact hout)
    have hit : legacyItem r = .list [.str (beFixed 32 root),
        .str (natToBe r.gas_used), .str (beFixed 256 r.log_bloom),
        .list (r.logs.map logRlpItem)] := by
      rw [legacyItem, houtc]
      rfl
    rw [hit]
    show (do
      let gas_used ← asU256 (RlpItem.str (natToBe r.gas_used))
      let log_bloom ← asFixed 256 (RlpItem.str (beFixed 256 r.log_bloom))
      let logs ← List.mapM.loop LogEntry.decode (r.logs.map logRlpItem) []
      let outcome ←
        (if (beFixed 32 root).length ≤ 1 then do
          let c ← asU8 (RlpItem.str (beFixed 32 root))
          pure (TransactionOutcome.statusCode c)
        else do
          let hh ← asFixed 32 (RlpItem.str (beFixed 32 root))
          pure (TransactionOutcome.stateRoot hh))
      pure { gas_used, log_bloom, logs, outcome })
      = DR.ok r
    rw [hgasd]
    simp only [DR.bind_ok]
    rw [hbloomd]
    simp only [DR.bind_ok]
    rw [hlogsd]
    simp only [DR.bind_ok]
    rw [if_neg (by rw [hlen32]; omega)]
    rw [asFixed_beFixed 32 root (by rw [pow256_32]; exact hout)]
    simp only [DR.bind_ok, DR.pure_eq]
    rw [← houtc]
  | statusCode code =>
    rw [houtc] at hout
    simp only [outcomeWfb, decide_eq_true_eq] at hout
    have hit : legacyItem r = .list [.str (natToBe code),
        .str (natToBe r.gas_used), .str (beFixed 256 r.log_bloom),
        .list (r.logs.map logRlpItem)] := by
      rw [legacyItem, houtc]
      rfl
    rw [hit]
    show (do
      let gas_used ← asU256 (RlpItem.str (natToBe r.gas_used))
      let log_bloom ← asFixed 256 (RlpItem.str (beFixed 256 r.log_bloom))
      let logs ← List.mapM.loop LogEntry.decode (r.logs.map logRlpItem) []
      let outcome ←
        (if (natToBe code).length ≤ 1 then do
          let c ← asU8 (RlpItem.str (natToBe code))
          pure (TransactionOutcome.statusCode c)
        else do
          let hh ← asFixed 32 (RlpItem.str (natToBe code))
          pure (TransactionOutcome.stateRoot hh))
      pure { gas_used, log_bloom, logs, outcome })
      = DR.ok r
    rw [hgasd]
    simp only [DR.bind_ok]
    rw [hbloomd]
    simp only [DR.bind_ok]
    rw [hlogsd]
    simp only [DR.bind_ok]
    rw [if_pos (natToBe_length_le_one code hout)]
    rw [asU8_natToBe code hout]
    simp only [DR.bind_ok, DR.pure_eq]
    rw [← houtc]

theorem legacy_roundtrip (r : LegacyReceipt) (h : r.wfb = true) :
    legacyDecodeBytes (encLegacy r) = .ok r := by
  have hok := rlpOf_oneChunk _ _ (oneChunk_encLegacy r h)
  rw [legacyDecodeBytes, hok]
  simp only [DR.bind_ok]
  exact legacyDecode_item r h

theorem wrapList_head (p : List Nat) :
    ∃ b t, wrapList p = b :: t ∧ 0xc0 ≤ b := by
  rw [wrapList, lenHeader]
  split
  · exact ⟨0xc0 + p.length, p, by simp, by omega⟩
  · exact ⟨0xc0 + 55 + (natToBe p.length).length, natToBe p.length ++ p, by simp,
      by omega⟩

theorem typed_decodeBytes_legacy (r : LegacyReceipt) (h : r.wfb = true) :
    TypedReceipt.decodeBytes (TypedReceipt.encode (.legacy r)) = .ok (.legacy r) := by
  obtain ⟨b, t, heq, hge⟩ := wrapList_head (legacyPayload r)
  have henc : TypedReceipt.encode (.legacy r) = b :: t := heq
  rw [henc, TypedReceipt.decodeBytes, TypedTxId.tryFromWireByte,
    if_neg (by omega), if_pos (by omega)]
  have hok : rlpOf (b :: t) = .ok (legacyItem r) := by
    rw [← henc]
    exact rlpOf_oneChunk _ _ (oneChunk_encLegacy r h)
  rw [hok]
  simp only [DR.bind_ok]
  rw [legacyDecode_item r h]
  rfl

theorem typed_decodeBytes_accessList (r : LegacyReceipt) (h : r.wfb = true) :
    TypedReceipt.decodeBytes (TypedReceipt.encode (.accessList r))
      = .ok (.accessList r) := by
  show TypedReceipt.decodeBytes (0x01 :: encLegacy r) = _
  rw [TypedReceipt.decodeBytes, TypedTxId.tryFromWireByte, if_pos rfl]
  rw [rlpOf_oneChunk _ _ (oneChunk_encLegacy r h)]
  simp only [DR.bind_ok]
  rw [legacyDecode_item r h]
  rfl

theorem legacyItem_isList (r : LegacyReceipt) : rlpIsList (legacyItem r) = true := rfl

theorem typed_decodeRlp_typedItem (t : TypedReceipt) (h : t.wfb = true) :
    TypedReceipt.decodeRlp (typedItem t) = .ok t := by
  cases t with
  | legacy r =>
    rw [TypedReceipt.decodeRlp,
      show typedItem (TypedReceipt.legacy r) = legacyItem r from rfl,
      if_pos (legacyItem_isList r), legacyDecode_item r h]
    rfl
  | accessList r =>
    rw [TypedReceipt.wfb, Bool.and_eq_true] at h
    rw [TypedReceipt.decodeRlp,
      show typedItem (TypedReceipt.accessList r)
        = RlpItem.str (0x01 :: encLegacy r) from rfl,
      if_neg (by simp [rlpIsList])]
    simp only [rlpData, DR.bind_ok]
    exact typed_decodeBytes_accessList r h.1

theorem oneChunk_encTypedChunk (t : TypedReceipt) (h : t.wfb = true) :
    OneChunk (encTypedChunk t) (typedItem t) := by
  cases t with
  | legacy r => exact oneChunk_encLegacy r h
  | accessList r =>
    rw [TypedReceipt.wfb, Bool.and_eq_true, decide_eq_true_eq] at h
    exact oneChunk_encStr _ h.2

theorem mapM_typedDecodeRlp (L : List TypedReceipt)
    (h : ∀ t ∈ L, t.wfb = true) :
    (L.map typedItem).mapM TypedReceipt.decodeRlp = .ok L := by
  induction L with
  | nil => rfl
  | cons t L ih =>
    have ht := typed_decodeRlp_typedItem t (h t (by simp))
    have hL : List.mapM.loop TypedReceipt.decodeRlp (L.map typedItem) [] = DR.ok L :=
      ih (fun x hx => h x (by simp [hx]))
    rw [List.map_cons, List.mapM_cons, ht]
    rw [show ((L.map typedItem).mapM TypedReceipt.decodeRlp : DR (List TypedReceipt))
      = List.mapM.loop TypedReceipt.decodeRlp (L.map typedItem) [] from rfl]
    rw [hL]
    rfl

theorem typedList_roundtrip (L : List TypedReceipt) (h : typedListWfb L = true) :
    typedDecodeRlpListBytes (rlpAppendList L) = .ok L := by
  rw [typedListWfb, Bool.and_eq_true, decide_eq_true_eq, List.all_eq_true] at h
  obtain ⟨hall, hlen⟩ := h
  have hflat : ((L.map encTypedChunk).flatten).length < 2 ^ 64 := by
    have := length_lt_wrapList ((L.map encTypedChunk).flatten)
    rw [rlpAppendList] at hlen
    omega
  have hmany : ManyTo ((L.map encTypedChunk).flatten) (L.map typedItem) :=
    manyTo_flatten encTypedChunk typedItem L
      (fun t ht => oneChunk_encTypedChunk t (hall t ht))
  have hok : rlpOf (rlpAppendList L) = .ok (.list (L.map typedItem)) :=
    rlpOf_oneChunk _ _ (oneChunk_wrapList _ _ hmany hflat)
  rw [typedDecodeRlpListBytes, hok]
  simp only [DR.bind_ok]
  rw [TypedReceipt.decodeRlpList]
  exact mapM_typedDecodeRlp L hall

theorem decode3_eq (a b c : RlpItem) :
    LegacyReceipt.decode (.list [a, b, c]) = (do
      let gas_used ← asU256 a
      let log_bloom ← asFixed 256 b
      let logs ← listAtLogs (RlpItem.list [a, b, c]) 2
      pure ({
        outcome := TransactionOutcome.unknown
        gas_used := gas_used
        log_bloom := log_bloom
        logs := logs } : LegacyReceipt)) := rfl

theorem decode4_eq (f0 a b c : RlpItem) :
    LegacyReceipt.decode (.list [f0, a, b, c]) = (do
      let gas_used ← asU256 a
      let log_bloom ← asFixed 256 b
      let logs ← listAtLogs (RlpItem.list [f0, a, b, c]) 3
      let outcome ← outcomeAt (RlpItem.list [f0, a, b, c])
      pure ({
        gas_used := gas_used
        log_bloom := log_bloom
        logs := logs
        outcome := outcome } : LegacyReceipt)) := rfl

theorem decode3_parts (a b c : RlpItem) (r : LegacyReceipt)
    (h : LegacyReceipt.decode (.list [a, b, c]) = .ok r) :
    r.outcome = .unknown ∧ asU256 a = .ok r.gas_used ∧
    asFixed 256 b = .ok r.log_bloom ∧
    listAtLogs (RlpItem.list [a, b, c]) 2 = .ok r.logs := by
  rw [decode3_eq] at h
  cases hg : asU256 a with
  | err e => rw [hg] at h; simp at h
  | ok gas =>
    rw [hg] at h
    simp only [DR.bind_ok] at h
    cases hb : asFixed 256 b with
    | err e => rw [hb] at h; simp at h
    | ok bloom =>
      rw [hb] at h
      simp only [DR.bind_ok] at h
      cases hl : listAtLogs (RlpItem.list [a, b, c]) 2 with
      | err e => rw [hl] at h; simp at h
      | ok logs =>
        rw [hl] at h
        simp only [DR.bind_ok, DR.pure_eq] at h
        cases h
        exact ⟨rfl, rfl, rfl, rfl⟩

theorem decode4_parts (f0 a b c : RlpItem) (r : LegacyReceipt)
    (h : LegacyReceipt.decode (.list [f0, a, b, c]) = .ok r) :
    asU256 a = .ok r.gas_used ∧ asFixed 256 b = .ok r.log_bloom ∧
    listAtLogs (RlpItem.list [f0, a, b, c]) 3 = .ok r.logs ∧
    outcomeAt (RlpItem.list [f0, a, b, c]) = .ok r.outcome := by
  rw [decode4_eq] at h
  cases hg : asU256 a with
  | err e => rw [hg] at h; simp at h
  | ok gas =>
    rw [hg] at h
    simp only [DR.bind_ok] at h
    cases hb : asFixed 256 b with
    | err e => rw [hb] at h; simp at h
    | ok bloom =>
      rw [hb] at h
      simp only [DR.bind_ok] at h
      cases hl : listAtLogs (RlpItem.list [f0, a, b, c]) 3 with
      | err e => rw [hl] at h; simp at h
      | ok logs =>
        rw [hl] at h
        simp only [DR.bind_ok] at h
        cases ho : outcomeAt (RlpItem.list [f0, a, b, c]) with
        | err e => rw [ho] at h; simp at h
        | ok outc =>
          rw [ho] at h
          simp only [DR.bind_ok, DR.pure_eq] at h
          cases h
          exact ⟨rfl, rfl, rfl, rfl⟩

theorem outcomeAt_classify (f0 : RlpItem) (rest : List RlpItem)
    (o : TransactionOutcome)
    (h : outcomeAt (.list (f0 :: rest)) = .ok o) :
    (∃ cc, o = .statusCode cc) ↔ (∃ bs, f0 = .str bs ∧ bs.length ≤ 1) := by
  cases f0 with
  | str bs =>
    have h' : (if bs.length ≤ 1 then (do
        let cc ← asU8 (RlpItem.str bs)
        pure (TransactionOutcome.statusCode cc))
      else (do
        let hh ← asFixed 32 (RlpItem.str bs)
        pure (TransactionOutcome.stateRoot hh))) = DR.ok o := h
    by_cases hlen : bs.length ≤ 1
    · rw [if_pos hlen] at h'
      cases hc : asU8 (RlpItem.str bs) with
      | err e => rw [hc] at h'; simp at h'
      | ok cc =>
        rw [hc] at h'
        simp only [DR.bind_ok, DR.pure_eq] at h'
        cases h'
        exact ⟨fun _ => ⟨bs, rfl, hlen⟩, fun _ => ⟨cc, rfl⟩⟩
    · rw [if_neg hlen] at h'
      cases hc : asFixed 32 (RlpItem.str bs) with
      | err e => rw [hc] at h'; simp at h'
      | ok hh =>
        rw [hc] at h'
        simp only [DR.bind_ok, DR.pure_eq] at h'
        cases h'
        constructor
        · rintro ⟨cc, hcc⟩
          cases hcc
        · rintro ⟨bs', hbs', hlen'⟩
          cases hbs'
          exact absurd hlen' hlen
  | list its =>
    have h' : (do
        let hh ← asFixed 32 (RlpItem.list its)
        pure (TransactionOutcome.stateRoot hh)) = DR.ok o := h
    cases hc : asFixed 32 (RlpItem.list its) with
    | err e => rw [hc] at h'; simp at h'
    | ok hh =>
      rw [hc] at h'
      simp only [DR.bind_ok, DR.pure_eq] at h'
      cases h'
      constructor
      · rintro ⟨cc, hcc⟩
        cases hcc
      · rintro ⟨bs', hbs', _⟩
        cases hbs'

@[simp] theorem DRes.ok_bind {α β : Type} (a : α) (f : α → DRes β) :
    (DRes.ok a >>= f) = f a := rfl

@[simp] theorem DRes.error_bind {α β : Type} (e : JsonError) (f : α → DRes β) :
    (DRes.error e >>= f) = .error e := rfl

@[simp] theorem DRes.panicked_bind {α β : Type} (f : α → DRes β) :
    (DRes.panicked >>= f) = .panicked := rfl

@[simp] theorem DRes.pure_def {α : Type} (a : α) : (pure a : DRes α) = .ok a := rfl

theorem btreeInsert_mem {α : Type} (k : Nat) (v : α) (st : List (Nat × α)) :
    ∀ x ∈ btreeInsert k v st, x = (k, v) ∨ x ∈ st := by
  induction st with
  | nil =>
    intro x hx
    rw [btreeInsert] at hx
    simp at hx
    simp [hx]
  | cons p rest ih =>
    obtain ⟨k', v'⟩ := p
    intro x hx
    rw [btreeInsert] at hx
    split_ifs at hx with h1 h2
    · simp only [List.mem_cons] at hx ⊢
      tauto
    · simp only [List.mem_cons] at hx ⊢
      tauto
    · simp only [List.mem_cons] at hx ⊢
      rcases hx with hx | hx
      · tauto
      · rcases ih x hx with h | h
        · tauto
        · tauto

theorem btreeInsert_pairwise {α : Type} (k : Nat) (v : α) (st : List (Nat × α))
    (h : st.Pairwise (fun a b => a.1 < b.1)) :
    (btreeInsert k v st).Pairwise (fun a b => a.1 < b.1) := by
  induction st with
  | nil => simp [btreeInsert]
  | cons p rest ih =>
    obtain ⟨k', v'⟩ := p
    rw [List.pairwise_cons] at h
    obtain ⟨hall, hrest⟩ := h
    rw [btreeInsert]
    split_ifs with h1 h2
    · rw [List.pairwise_cons]
      refine ⟨?_, ?_⟩
      · intro x hx
        simp only [List.mem_cons] at hx
        rcases hx with rfl | hx
        · exact h1
        · exact lt_trans h1 (hall x hx)
      · rw [List.pairwise_cons]
        exact ⟨hall, hrest⟩
    · rw [List.pairwise_cons]
      refine ⟨?_, hrest⟩
      intro x hx
      have := hall x hx
      simp only []
      omega
    · rw [List.pairwise_cons]
      refine ⟨?_, ih hrest⟩
      intro x hx
      rcases btreeInsert_mem k v rest x hx with rfl | hx
      · simp only []
        omega
      · exact hall x hx

theorem lookup_pairwise {α : Type} (st : List (Nat × α))
    (h : st.Pairwise (fun a b => a.1 < b.1)) (k : Nat) (v : α)
    (hm : (k, v) ∈ st) : st.lookup k = some v := by
  induction st with
  | nil => cases hm
  | cons p rest ih =>
    obtain ⟨k', v'⟩ := p
    rw [List.pairwise_cons] at h
    obtain ⟨hall, hrest⟩ := h
    rw [List.mem_cons] at hm
    rcases hm with heq | hm
    · cases heq
      simp [List.lookup]
    · have hk : k' < k := hall (k, v) hm
      have hne : (k == k') = false := by
        simp only [beq_eq_false_iff_ne, ne_eq]
        omega
      simp only [List.lookup, hne]
      exact ih hrest hm

theorem restore_fold_pairwise (fields : List (String × Json)) :
    ∀ (acc st : List (Nat × List TransactionTrace)),
      acc.Pairwise (fun a b => a.1 < b.1) →
      (fields.foldlM
        (fun st kv => do
          let k ← match decimalU64? kv.1 with
            | some k => DRes.ok k
            | none => .error .typeMismatch
          let traces ← match kv.2 with
            | .arr xs => xs.mapM TransactionTrace.fromJson
            | _ => .error .typeMismatch
          pure (btreeInsert k traces st))
        acc) = .ok st →
      st.Pairwise (fun a b => a.1 < b.1) := by
  induction fields with
  | nil =>
    intro acc st hacc hfold
    have heq : (DRes.ok acc : DRes (List (Nat × List TransactionTrace)))
        = .ok st := hfold
    cases heq
    exact hacc
  | cons kv rest ih =>
    intro acc st hacc hfold
    obtain ⟨key, jv⟩ := kv
    rw [List.foldlM_cons] at hfold
    cases hk : decimalU64? key with
    | none =>
      simp only [hk] at hfold
      simp at hfold
    | some k =>
      simp only [hk] at hfold
      cases jv with
      | arr xs =>
        cases hm : xs.mapM TransactionTrace.fromJson with
        | panicked =>
          simp only [hm] at hfold
          simp at hfold
        | error e =>
          simp only [hm] at hfold
          simp at hfold
        | ok traces =>
          simp only [hm, DRes.ok_bind, DRes.pure_def] at hfold
          exact ih (btreeInsert k traces acc) st
            (btreeInsert_pairwise k traces acc hacc) hfold
      | null => simp at hfold
      | bool b => simp at hfold
      | num n => simp at hfold
      | str s => simp at hfold
      | obj fs => simp at hfold

/-- C1: for every well-formed legacy receipt — any of the three
outcome variants, any number of logs — decoding the RLP bytes
produced by `TypedReceipt::encode` (the drained `rlp_append` stream)
with `LegacyReceipt::decode` yields exactly the original receipt, and
`TypedReceipt::decode_rlp` yields it wrapped in the Legacy variant:
decode after encode is the identity on valid receipts. -/
theorem C1_legacy_receipt_roundtrip (r : LegacyReceipt) (h : r.wfb = true) :
    legacyDecodeBytes (TypedReceipt.encode (.legacy r)) = .ok r ∧
    typedDecodeRlpBytes (TypedReceipt.encode (.legacy r)) = .ok (.legacy r) := by
  refine ⟨legacy_roundtrip r h, ?_⟩
  have hok := rlpOf_oneChunk _ _ (oneChunk_encLegacy r h)
  rw [typedDecodeRlpBytes,
    show TypedReceipt.encode (.legacy r) = encLegacy r from rfl, hok]
  simp only [DR.bind_ok]
  exact typed_decodeRlp_typedItem (.legacy r) h

/-- Witness for C1 at the sample receipt with outcome `Unknown`. -/
theorem C1_legacy_receipt_roundtrip_witness :
    legacyDecodeBytes (TypedReceipt.encode (.legacy (sampleReceipt .unknown)))
        = .ok (sampleReceipt .unknown) ∧
    typedDecodeRlpBytes (TypedReceipt.encode (.legacy (sampleReceipt .unknown)))
        = .ok (.legacy (sampleReceipt .unknown)) :=
  C1_legacy_receipt_roundtrip (sampleReceipt .unknown) (by decide)

/-- C2: a `StatusCode(0)` receipt and a 32-byte `StateRoot` receipt
both encode as 4-item lists and each round-trips to exactly its own
outcome (so `StatusCode(0)` never comes back as `StateRoot` and vice
versa); and on any successfully decoded 4-item list the outcome is a
status code exactly when field 0 is a plain byte string of length at
most one (a zero-length string meaning code 0, which `asU8` yields). -/
theorem C2_outcome_disambiguation :
    (∀ r : LegacyReceipt, r.wfb = true → r.outcome = .statusCode 0 →
      itemCount (legacyItem r) = .ok 4 ∧
      legacyDecodeBytes (encLegacy r) = .ok r) ∧
    (∀ (r : LegacyReceipt) (hsh : Nat), r.wfb = true →
      r.outcome = .stateRoot hsh →
      itemCount (legacyItem r) = .ok 4 ∧
      legacyDecodeBytes (encLegacy r) = .ok r) ∧
    (∀ (f0 a b c : RlpItem) (r : LegacyReceipt),
      LegacyReceipt.decode (.list [f0, a, b, c]) = .ok r →
      ((∃ cc, r.outcome = .statusCode cc) ↔
        ∃ bs, f0 = .str bs ∧ bs.length ≤ 1)) := by
  refine ⟨?_, ?_, ?_⟩
  · intro r h hout
    refine ⟨?_, legacy_roundtrip r h⟩
    rw [legacyItem, hout]
    rfl
  · intro r hsh h hout
    refine ⟨?_, legacy_roundtrip r h⟩
    rw [legacyItem, hout]
    rfl
  · intro f0 a b c r hdec
    exact outcomeAt_classify f0 [a, b, c] r.outcome
      (decode4_parts f0 a b c r hdec).2.2.2

/-- Witness for C2 at the sample receipt with outcome
`StatusCode(0)`. -/
theorem C2_outcome_disambiguation_witness :
    itemCount (legacyItem (sampleReceipt (.statusCode 0))) = .ok 4 ∧
    legacyDecodeBytes (encLegacy (sampleReceipt (.statusCode 0)))
      = .ok (sampleReceipt (.statusCode 0)) :=
  C2_outcome_disambiguation.1 (sampleReceipt (.statusCode 0))
    (by decide) (by decide)

/-- C3 counterexample: `decode_rlp` applied directly to the raw byte
output of encoding an AccessList receipt does not reproduce the
receipt — the view reads only the first byte `0x01` as an RLP item, so
decoding fails instead of returning the original value. -/
theorem C3_counterexample :
    typedDecodeRlpBytes (TypedReceipt.encode (.accessList
        { gas_used := 0, log_bloom := 0, logs := [], outcome := .unknown }))
      ≠ .ok (.accessList
        { gas_used := 0, log_bloom := 0, logs := [], outcome := .unknown }) := by
  decide

/-- C3 (amended): encoding an AccessList receipt yields exactly the
type-id byte `0x01` followed by the raw RLP list bytes, and a Legacy
receipt exactly the raw list bytes with no prefix; the byte-level
`TypedReceipt::decode` reproduces the original variant and value from
either output (as the repository's own tests exercise);
`decode_rlp` reproduces the Legacy variant directly from its output,
and reproduces the AccessList variant when the envelope bytes are
carried as an RLP byte-string item (as `rlp_append` emits them inside
an outer list) — but not from the raw AccessList output itself. -/
theorem C3_envelope_framing (r : LegacyReceipt)
    (h : (TypedReceipt.accessList r).wfb = true) :
    TypedReceipt.encode (.accessList r) = 0x01 :: encLegacy r ∧
    TypedReceipt.encode (.legacy r) = encLegacy r ∧
    TypedReceipt.decodeBytes (TypedReceipt.encode (.legacy r))
      = .ok (.legacy r) ∧
    TypedReceipt.decodeBytes (TypedReceipt.encode (.accessList r))
      = .ok (.accessList r) ∧
    typedDecodeRlpBytes (TypedReceipt.encode (.legacy r)) = .ok (.legacy r) ∧
    TypedReceipt.decodeRlp (.str (TypedReceipt.encode (.accessList r)))
      = .ok (.accessList r) := by
  have hr : r.wfb = true := by
    rw [TypedReceipt.wfb, Bool.and_eq_true] at h
    exact h.1
  refine ⟨rfl, rfl, typed_decodeBytes_legacy r hr,
    typed_decodeBytes_accessList r hr, ?_, ?_⟩
  · have hok := rlpOf_oneChunk _ _ (oneChunk_encLegacy r hr)
    rw [typedDecodeRlpBytes,
      show TypedReceipt.encode (.legacy r) = encLegacy r from rfl, hok]
    simp only [DR.bind_ok]
    exact typed_decodeRlp_typedItem (.legacy r) hr
  · exact typed_decodeRlp_typedItem (.accessList r) h

/-- Witness for the amended C3 at the sample receipt. -/
theorem C3_envelope_framing_witness :
    TypedReceipt.encode (.accessList (sampleReceipt .unknown))
      = 0x01 :: encLegacy (sampleReceipt .unknown) ∧
    TypedReceipt.encode (.legacy (sampleReceipt .unknown))
      = encLegacy (sampleReceipt .unknown) ∧
    TypedReceipt.decodeBytes (TypedReceipt.encode (.legacy (sampleReceipt .unknown)))
      = .ok (.legacy (sampleReceipt .unknown)) ∧
    TypedReceipt.decodeBytes
        (TypedReceipt.encode (.accessList (sampleReceipt .unknown)))
      = .ok (.accessList (sampleReceipt .unknown)) ∧
    typedDecodeRlpBytes (TypedReceipt.encode (.legacy (sampleReceipt .unknown)))
      = .ok (.legacy (sampleReceipt .unknown)) ∧
    TypedReceipt.decodeRlp
        (.str (TypedReceipt.encode (.accessList (sampleReceipt .unknown))))
      = .ok (.accessList (sampleReceipt .unknown)) :=
  C3_envelope_framing (sampleReceipt .unknown) (by decide)

/-- C4: for every envelope byte string whose first byte is not a
recognized transaction-type id, `TypedReceipt::decode` fails with the
unknown-transaction error (it never falls back to the Legacy variant),
and the empty byte string fails with the malformed-length error. -/
theorem C4_unknown_type_id (b : Nat) (rest : List Nat)
    (h : TypedTxId.tryFromWireByte b = none) :
    TypedReceipt.decodeBytes (b :: rest) = .err (.custom "Unknown transaction") ∧
    TypedReceipt.decodeBytes [] = .err .rlpIncorrectListLen := by
  constructor
  · simp only [TypedReceipt.decodeBytes, h]
  · rfl

/-- Witness for C4 at the unknown type-id byte `0x7f`. -/
theorem C4_unknown_type_id_witness :
    TypedReceipt.decodeBytes [0x7f] = .err (.custom "Unknown transaction") ∧
    TypedReceipt.decodeBytes [] = .err .rlpIncorrectListLen :=
  C4_unknown_type_id 0x7f [] (by decide)

/-- C5: `LegacyReceipt::decode` dispatches on the RLP item count: a
3-item list decodes with outcome `Unknown` and gas used, log bloom and
logs read from positions 0, 1, 2; a 4-item list reads them from
positions 1, 2, 3 with the outcome derived from field 0; any other
item count fails with the incorrect-list-length error. -/
theorem C5_item_count_dispatch :
    (∀ (a b c : RlpItem) (r : LegacyReceipt),
      LegacyReceipt.decode (.list [a, b, c]) = .ok r →
      r.outcome = .unknown ∧ asU256 a = .ok r.gas_used ∧
      asFixed 256 b = .ok r.log_bloom ∧
      listAtLogs (RlpItem.list [a, b, c]) 2 = .ok r.logs) ∧
    (∀ (f0 a b c : RlpItem) (r : LegacyReceipt),
      LegacyReceipt.decode (.list [f0, a, b, c]) = .ok r →
      asU256 a = .ok r.gas_used ∧ asFixed 256 b = .ok r.log_bloom ∧
      listAtLogs (RlpItem.list [f0, a, b, c]) 3 = .ok r.logs ∧
      outcomeAt (RlpItem.list [f0, a, b, c]) = .ok r.outcome) ∧
    (∀ its : List RlpItem, its.length ≠ 3 → its.length ≠ 4 →
      LegacyReceipt.decode (.list its) = .err .rlpIncorrectListLen) := by
  refine ⟨decode3_parts, decode4_parts, ?_⟩
  intro its h3 h4
  rw [LegacyReceipt.decode]
  rw [show itemCount (RlpItem.list its) = .ok its.length from rfl]
  rw [DR.bind_ok]
  generalize its.length = n at h3 h4 ⊢
  rcases n with _ | _ | _ | _ | _ | n
  · rfl
  · rfl
  · rfl
  · exact absurd rfl h3
  · exact absurd rfl h4
  · rfl

/-- Witness for C5 at a 1-item list. -/
theorem C5_item_count_dispatch_witness :
    LegacyReceipt.decode (.list [RlpItem.str []])
      = .err .rlpIncorrectListLen :=
  C5_item_count_dispatch.2.2 [RlpItem.str []] (by decide) (by decide)

/-- C6: encoding any finite batch of typed receipts — Legacy and
AccessList variants mixed in any order — as one RLP list via
`rlp_append_list` and decoding the bytes via `decode_rlp_list`
returns exactly the same receipts, in the same order, with the same
variants. -/
theorem C6_batch_roundtrip (L : List TypedReceipt) (h : typedListWfb L = true) :
    typedDecodeRlpListBytes (rlpAppendList L) = .ok L :=
  typedList_roundtrip L h

/-- Witness for C6 at a mixed two-receipt batch. -/
theorem C6_batch_roundtrip_witness :
    typedDecodeRlpListBytes (rlpAppendList
        [.legacy (sampleReceipt .unknown),
         .accessList (sampleReceipt (.statusCode 1))])
      = .ok [.legacy (sampleReceipt .unknown),
             .accessList (sampleReceipt (.statusCode 1))] :=
  C6_batch_roundtrip
    [.legacy (sampleReceipt .unknown), .accessList (sampleReceipt (.statusCode 1))]
    (by decide)

/-- C7 counterexample: a frozen-state resource whose `logBloom` is not
valid hexadecimal makes the load panic (the `unwrap` inside
`deserialize_bloom`), it does not return a typed parse error to the
caller as the claim states. -/
theorem C7_counterexample :
    restoreFrozenState frozenFixtureBadBloom = .panicked := by
  decide

/-- C7 (amended): a `logBloom` string that is not valid hexadecimal,
or whose bytes cannot be DEFLATE-inflated, makes `deserialize_bloom`
panic (an `unwrap` on the failed hex decode or inflate) instead of
returning a typed error; malformed JSON outside the bloom field — such
as a balance operation missing its `op` field — still fails the load
with a typed error returned to the caller. -/
theorem C7_bloom_failure_panics :
    (∀ (s : String) (c0 c1 : Char) (stripped : List Char),
      s.toList = c0 :: c1 :: stripped → hexDecodeAux stripped = none →
      deserializeBloom s = .panicked) ∧
    (∀ (s : String) (c0 c1 : Char) (stripped : List Char) (bs : List Nat),
      s.toList = c0 :: c1 :: stripped → hexDecodeAux stripped = some bs →
      inflateBytes bs = none → deserializeBloom s = .panicked) ∧
    restoreFrozenState frozenFixtureMissingOp = .error .missingField := by
  refine ⟨?_, ?_, by decide⟩
  · intro s c0 c1 stripped hs hhex
    rw [deserializeBloom, hs]
    simp only [hhex]
  · intro s c0 c1 stripped bs hs hhex hinf
    rw [deserializeBloom, hs]
    simp only [hhex, hinf]

/-- Witness for the amended C7 at the invalid-hex bloom string
`"0xzz"`. -/
theorem C7_bloom_failure_panics_witness :
    deserializeBloom "0xzz" = .panicked :=
  C7_bloom_failure_panics.1 "0xzz" '0' 'x' ['z', 'z'] (by decide) (by decide)

/-- C8: whenever a wire receipt list decodes successfully, the decoded
`log_bloom` is exactly the literal bloom field of the wire bytes
(position 1 of a 3-item list, position 2 of a 4-item list); it is
never recomputed from the decoded logs — witnessed by a receipt item
whose wire bloom is zero while the OR-accrual of its logs' blooms is
not. -/
theorem C8_wire_bloom_literal :
    (∀ (a b c : RlpItem) (r : LegacyReceipt),
      LegacyReceipt.decode (.list [a, b, c]) = .ok r →
      asFixed 256 b = .ok r.log_bloom) ∧
    (∀ (f0 a b c : RlpItem) (r : LegacyReceipt),
      LegacyReceipt.decode (.list [f0, a, b, c]) = .ok r →
      asFixed 256 b = .ok r.log_bloom) ∧
    (LegacyReceipt.decode (legacyItem
        { gas_used := 1, log_bloom := 0, logs := [sampleLog], outcome := .unknown })
      = .ok { gas_used := 1, log_bloom := 0, logs := [sampleLog], outcome := .unknown } ∧
      ({ gas_used := 1, log_bloom := 0, logs := [sampleLog], outcome := .unknown } : LegacyReceipt).log_bloom
        ≠ [sampleLog].foldl (fun b l => accrueBloom b l.bloom) 0) := by
  refine ⟨fun a b c r h => (decode3_parts a b c r h).2.2.1,
    fun f0 a b c r h => (decode4_parts f0 a b c r h).2.1, by decide, by decide⟩

/-- Witness for C8 at a concrete 3-item wire list with a zero bloom. -/
theorem C8_wire_bloom_literal_witness :
    asFixed 256 (RlpItem.str (List.replicate 256 0)) = .ok
      ({ gas_used := 0, log_bloom := 0, logs := [], outcome := .unknown } : LegacyReceipt).log_bloom :=
  C8_wire_bloom_literal.1 (.str []) (.str (List.replicate 256 0)) (.list [])
    { gas_used := 0, log_bloom := 0, logs := [], outcome := .unknown } (by decide)

/-- C9: `LegacyReceipt::new` sets the bloom to the fold that ORs each
log's own bloom projection into the zero bloom, and the construction
is order-independent: a permutation of the logs yields the same
bloom. -/
theorem C9_bloom_accrual_fold (o o' : TransactionOutcome) (gas gas' : Nat)
    (logs logs' : List LogEntry) (hperm : logs.Perm logs') :
    (LegacyReceipt.new o gas logs).log_bloom
      = logs.foldl (fun b l => accrueBloom b l.bloom) 0 ∧
    (LegacyReceipt.new o gas logs).log_bloom
      = (LegacyReceipt.new o' gas' logs').log_bloom := by
  refine ⟨rfl, ?_⟩
  show logs.foldl (fun b l => accrueBloom b l.bloom) 0
    = logs'.foldl (fun b l => accrueBloom b l.bloom) 0
  refine hperm.foldl_eq' ?_ 0
  intro x _ y _ z
  show (z ||| x.bloom) ||| y.bloom = (z ||| y.bloom) ||| x.bloom
  rw [Nat.lor_assoc, Nat.lor_comm x.bloom y.bloom, ← Nat.lor_assoc]

/-- Witness for C9 at a two-log list and its swap. -/
theorem C9_bloom_accrual_fold_witness :
    (LegacyReceipt.new .unknown 7
        [{ address := 1, topics := [], data := [] },
         { address := 2, topics := [], data := [] }]).log_bloom
      = [({ address := 1, topics := [], data := [] } : LogEntry),
         { address := 2, topics := [], data := [] }].foldl
          (fun b l => accrueBloom b l.bloom) 0 ∧
    (LegacyReceipt.new .unknown 7
        [{ address := 1, topics := [], data := [] },
         { address := 2, topics := [], data := [] }]).log_bloom
      = (LegacyReceipt.new (.statusCode 1) 9
        [{ address := 2, topics := [], data := [] },
         { address := 1, topics := [], data := [] }]).log_bloom :=
  C9_bloom_accrual_fold .unknown (.statusCode 1) 7 9
    [{ address := 1, topics := [], data := [] },
     { address := 2, topics := [], data := [] }]
    [{ address := 2, topics := [], data := [] },
     { address := 1, topics := [], data := [] }] (by decide)

/-- C10: whatever the order of the block-number keys in the JSON
resource, a successful `restore_frozen_state` yields a registry whose
entries are strictly ascending in the block number, and point lookup
by block number is well defined: every entry is found by `lookup` at
its key. -/
theorem C10_registry_ordered (j : Json)
    (st : List (Nat × List TransactionTrace))
    (h : restoreFrozenState j = .ok st) :
    st.Pairwise (fun a b => a.1 < b.1) ∧
    ∀ (k : Nat) (v : List TransactionTrace), (k, v) ∈ st →
      st.lookup k = some v := by
  have hpw : st.Pairwise (fun a b => a.1 < b.1) := by
    cases j with
    | obj fields =>
      have h' : (fields.foldlM
          (fun st kv => do
            let k ← match decimalU64? kv.1 with
              | some k => DRes.ok k
              | none => .error .typeMismatch
            let traces ← match kv.2 with
              | .arr xs => xs.mapM TransactionTrace.fromJson
              | _ => .error .typeMismatch
            pure (btreeInsert k traces st))
          []) = .ok st := h
      exact restore_fold_pairwise fields [] st (by simp) h'
    | null => simp [restoreFrozenState] at h
    | bool b => simp [restoreFrozenState] at h
    | num n => simp [restoreFrozenState] at h
    | str s => simp [restoreFrozenState] at h
    | arr xs => simp [restoreFrozenState] at h
  exact ⟨hpw, fun k v hm => lookup_pairwise st hpw k v hm⟩

/-- Witness for C10 at a two-key resource whose keys appear in
descending order. -/
theorem C10_registry_ordered_witness :
    ([(3, []), (5, [])] : List (Nat × List TransactionTrace)).Pairwise
      (fun a b => a.1 < b.1) ∧
    ∀ (k : Nat) (v : List TransactionTrace), (k, v) ∈
        ([(3, []), (5, [])] : List (Nat × List TransactionTrace)) →
      ([(3, []), (5, [])] : List (Nat × List TransactionTrace)).lookup k
        = some v :=
  C10_registry_ordered (.obj [("5", .arr []), ("3", .arr [])])
    [(3, []), (5, [])] (by decide)
